import Mathlib

/-!
# SPIFFS example driver (`main/spiffs_example_main.c`)

A shallow embedding of `app_main`, the only function of the repository.

`app_main` is a sequential driver over two external services: the SPIFFS
filesystem component (`esp_vfs_spiffs_register`, `esp_spiffs_info`,
`esp_spiffs_format`, `esp_spiffs_check`, `esp_vfs_spiffs_unregister`) and the
C file API (`stat`, `fopen`, `fseek`, `fprintf`, `fclose`).  Neither is part of
the sources, so both are taken as a parameter `Lib σ`: an arbitrary
deterministic implementation over an arbitrary world state `σ`.

The driver is a transition system.  A configuration holds the program point,
the local variables of `app_main`, the world of the services and the sequence
of service calls made so far.  One `step` executes one basic block of the
source.  `ESP_LOGx` lines only write to the console; they read program
variables but are not read back by the program, and are left out of the
configuration (their place is marked in comments).
-/

namespace SpiffsExample

/-! ## Machine integers and constants -/

/-- The type `esp_err_t` of ESP-IDF status codes (a C `int`). -/
abbrev esp_err_t := Int

/-- The null `FILE *`. File handles are modelled by their address. -/
def NULL : Nat := 0

/-- Number of values of a `size_t` on the 32-bit target. -/
def SIZE_MOD : Nat := 2 ^ 32

/-- Storing a byte count into a `size_t` variable. -/
def to_size_t (n : Nat) : Nat := n % SIZE_MOD

/-- The `size_t` subtraction `a - b`, which wraps around modulo `2 ^ 32`. -/
def size_sub (a b : Nat) : Nat := (a % SIZE_MOD + SIZE_MOD - b % SIZE_MOD) % SIZE_MOD

/-- Conversion of a `size_t` value to `int32_t` (two's complement wrap), as in
`int32_t available_space = (total - used);`. -/
def to_int32 (n : Nat) : Int :=
  if n % SIZE_MOD < 2 ^ 31 then ((n % SIZE_MOD : Nat) : Int)
  else ((n % SIZE_MOD : Nat) : Int) - (SIZE_MOD : Int)

/-- The global `char filename[20] = "/spiffs/test.txt";`. -/
def filename : String := "/spiffs/test.txt"

/-- The one fixed log line appended by each loop iteration. -/
def log_line : String :=
  "this is a log test string to fill up the file, for testing whether everything works OK\n"

/-- The struct `esp_vfs_spiffs_conf_t`. -/
structure esp_vfs_spiffs_conf_t where
  base_path : String
  partition_label : Option String
  max_files : Nat
  format_if_mount_failed : Bool
  deriving DecidableEq, Repr

/-- The local `conf` of `app_main` (source lines 27-31). -/
def conf : esp_vfs_spiffs_conf_t :=
  { base_path := "/spiffs", partition_label := none, max_files := 5,
    format_if_mount_failed := true }

/-- The `whence` argument of `fseek`. -/
inductive Whence
  | SEEK_SET
  | SEEK_CUR
  | SEEK_END
  deriving DecidableEq, Repr

/-! ## The external services -/

/-- The external filesystem and file-I/O services, over a world state `σ`.
Every operation returns its result and the new world.  The status constants
`ESP_OK` and `ESP_FAIL` are declared by the header `esp_err.h`, which is not
part of the sources; they are parameters as well. -/
structure Lib (σ : Type) where
  ESP_OK : esp_err_t
  ESP_FAIL : esp_err_t
  esp_vfs_spiffs_register : esp_vfs_spiffs_conf_t → σ → esp_err_t × σ
  /-- Returns the status and the values written to `*total` and `*used`. -/
  esp_spiffs_info : Option String → σ → (esp_err_t × Nat × Nat) × σ
  esp_spiffs_format : Option String → σ → esp_err_t × σ
  esp_spiffs_check : Option String → σ → esp_err_t × σ
  esp_vfs_spiffs_unregister : Option String → σ → esp_err_t × σ
  stat : String → σ → Int × σ
  fopen : String → String → σ → Nat × σ
  fseek : Nat → Int → Whence → σ → Int × σ
  fprintf : Nat → String → σ → Int × σ
  fclose : Nat → σ → Int × σ

/-- One call of an external service, with the arguments the driver passed and,
where the driver reads it, the result it received. -/
inductive Event
  | register (ret : esp_err_t)
  | info (ret : esp_err_t) (total used : Nat)
  | format
  | check (ret : esp_err_t)
  | unregister
  | stat (path : String) (r : Int)
  | fopen (path mode : String) (f : Nat)
  | fseek (f : Nat) (off : Int) (w : Whence)
  | fprintf (f : Nat) (s : String)
  | fclose (f : Nat)
  deriving DecidableEq, Repr

/-! ## The driver as a transition system -/

/-- Program points of `app_main`: the entry of each basic block. -/
inductive Pc
  /-- Line 35: about to mount. -/
  | mount
  /-- Line 54: about to query space for the first time. -/
  | query
  /-- Line 68: the test `used > total`. -/
  | guard
  /-- Line 86: computing `available_space`, then open-or-create. -/
  | create
  /-- Line 114: the test of the `while`. -/
  | loop
  /-- Line 116: the body of the `while`. -/
  | body
  /-- Line 119: the test of the `for`. -/
  | spin
  /-- After a `return`, or the end of the function. -/
  | done
  deriving DecidableEq, Repr

/-- A configuration: program point, the locals of `app_main`, the world of the
services and the calls made so far (oldest first). -/
structure Cfg (σ : Type) where
  pc : Pc
  world : σ
  ret : esp_err_t
  total : Nat
  used : Nat
  available_space : Int
  f : Nat
  gdb : Int
  trace : List Event
  deriving DecidableEq, Repr

/-- The configuration at the entry of `app_main`.  `total` and `used` are
initialised to 0 at line 54; the other locals are not yet assigned and
are given the value 0. -/
def start {σ : Type} (w : σ) : Cfg σ :=
  { pc := .mount, world := w, ret := 0, total := 0, used := 0, available_space := 0,
    f := NULL, gdb := 0, trace := [] }

/-- Lines 25-52: mount; any status other than `ESP_OK` returns. -/
def stepMount {σ : Type} (L : Lib σ) (c : Cfg σ) : Cfg σ :=
  let r := L.esp_vfs_spiffs_register conf c.world
  let c1 := { c with world := r.2, ret := r.1, trace := c.trace ++ [Event.register r.1] }
  if c1.ret ≠ L.ESP_OK then
    -- ESP_LOGE, one of three messages chosen by the value of ret
    { c1 with pc := .done }
  else
    { c1 with pc := .query }

/-- The call `ret = esp_spiffs_info(conf.partition_label, &total, &used);` of
lines 55 and 133: the status goes to `ret`, the two counts to the `size_t`
variables `total` and `used`. -/
def callInfo {σ : Type} (L : Lib σ) (c : Cfg σ) : Cfg σ :=
  let r := L.esp_spiffs_info conf.partition_label c.world
  { c with world := r.2, ret := r.1.1, total := to_size_t r.1.2.1, used := to_size_t r.1.2.2,
           trace := c.trace ++ [Event.info r.1.1 (to_size_t r.1.2.1) (to_size_t r.1.2.2)] }

/-- The call `esp_spiffs_format(conf.partition_label);` of lines 59 and 137,
whose status is discarded. -/
def callFormat {σ : Type} (L : Lib σ) (c : Cfg σ) : Cfg σ :=
  let r := L.esp_spiffs_format conf.partition_label c.world
  { c with world := r.2, trace := c.trace ++ [Event.format] }

/-- Lines 54-65: the first space query; on an error format and return. -/
def stepQuery {σ : Type} (L : Lib σ) (c : Cfg σ) : Cfg σ :=
  let c1 := callInfo L { c with total := 0, used := 0 }
  if c1.ret ≠ L.ESP_OK then
    -- ESP_LOGE "Failed to get SPIFFS partition information (%s). Formatting..."
    { callFormat L c1 with pc := .done }
  else
    -- ESP_LOGI "Partition size: total: %d, used: %d"
    { c1 with pc := .guard }

/-- Lines 67-83: the consistency guard. -/
def stepGuard {σ : Type} (L : Lib σ) (c : Cfg σ) : Cfg σ :=
  if c.used > c.total then
    -- ESP_LOGW "Number of used bytes cannot be larger than total. ..."
    let r := L.esp_spiffs_check conf.partition_label c.world
    let c1 := { c with world := r.2, ret := r.1, trace := c.trace ++ [Event.check r.1] }
    if c1.ret ≠ L.ESP_OK then
      -- ESP_LOGE "SPIFFS_check() failed (%s)"
      { c1 with pc := .done }
    else
      -- ESP_LOGI "SPIFFS_check() successful"
      { c1 with pc := .create }
  else
    { c with pc := .create }

/-- Lines 85-111: `available_space` and the open-or-create step. -/
def stepCreate {σ : Type} (L : Lib σ) (c : Cfg σ) : Cfg σ :=
  let c1 := { c with available_space := to_int32 (size_sub c.total c.used),
                     ret := L.ESP_OK }
  let r := L.stat filename c1.world
  let c2 := { c1 with world := r.2, trace := c1.trace ++ [Event.stat filename r.1] }
  if r.1 ≠ 0 then
    let o := L.fopen filename "w" c2.world
    let c3 := { c2 with world := o.2, f := o.1,
                        trace := c2.trace ++ [Event.fopen filename "w" o.1] }
    let k := L.fclose c3.f c3.world
    let c4 := { c3 with world := k.2, trace := c3.trace ++ [Event.fclose c3.f] }
    if c4.f = NULL then
      -- ESP_LOGE "Failed to create file"
      { c4 with ret := L.ESP_FAIL, pc := .loop }
    else
      -- ESP_LOGI "New file created: %s"
      { c4 with pc := .loop }
  else
    -- ESP_LOGI "Using existing file: %s"
    { c2 with pc := .loop }

/-- Line 114 and lines 148-150: the `while` test; on exit, unmount. -/
def stepLoop {σ : Type} (L : Lib σ) (c : Cfg σ) : Cfg σ :=
  if c.available_space > 1000 then
    { c with pc := .body }
  else
    let r := L.esp_vfs_spiffs_unregister conf.partition_label c.world
    -- ESP_LOGI "SPIFFS unmounted"
    { c with world := r.2, trace := c.trace ++ [Event.unregister], pc := .done }

/-- Lines 116-145: one pass through the body of the `while`. -/
def stepBody {σ : Type} (L : Lib σ) (c : Cfg σ) : Cfg σ :=
  let o := L.fopen filename "r+" c.world
  let c1 := { c with world := o.2, f := o.1,
                     trace := c.trace ++ [Event.fopen filename "r+" o.1] }
  if c1.f = NULL then
    { c1 with gdb := 1, pc := .spin }
  else
    let s := L.fseek c1.f 0 Whence.SEEK_END c1.world
    let c2 := { c1 with world := s.2,
                        trace := c1.trace ++ [Event.fseek c1.f 0 Whence.SEEK_END] }
    let p := L.fprintf c2.f log_line c2.world
    let c3 := { c2 with world := p.2, trace := c2.trace ++ [Event.fprintf c2.f log_line] }
    let k := L.fclose c3.f c3.world
    let c4 := { c3 with world := k.2, trace := c3.trace ++ [Event.fclose c3.f] }
    let c5 := callInfo L c4
    if c5.ret ≠ L.ESP_OK then
      -- ESP_LOGE "Failed to get SPIFFS partition information (%s). Formatting..."
      { callFormat L c5 with pc := .done }
    else
      -- ESP_LOGI "Partition size: total: %d, used: %d"
      { c5 with available_space := to_int32 (size_sub c5.total c5.used), pc := .loop }

/-- Lines 119-124: the `for (int gdb=1; gdb==1;)` loop, whose body only logs. -/
def stepSpin {σ : Type} (_L : Lib σ) (c : Cfg σ) : Cfg σ :=
  if c.gdb = 1 then
    -- ESP_LOGE "THIS SHOULD NOT HAPPEN - Failed to open file for updating, %d "
    { c with pc := .spin }
  else
    { c with pc := .loop }

/-- One step of `app_main`: the basic block at the current program point.
A configuration that has returned stays as it is. -/
def step {σ : Type} (L : Lib σ) (c : Cfg σ) : Cfg σ :=
  match c.pc with
  | .mount => stepMount L c
  | .query => stepQuery L c
  | .guard => stepGuard L c
  | .create => stepCreate L c
  | .loop => stepLoop L c
  | .body => stepBody L c
  | .spin => stepSpin L c
  | .done => c

/-- The configuration after `n` steps from `c`. -/
def exec {σ : Type} (L : Lib σ) : Nat → Cfg σ → Cfg σ
  | 0, c => c
  | n + 1, c => exec L n (step L c)

/-- The run of `app_main` in world `w`, observed after `n` steps. -/
def app_main {σ : Type} (L : Lib σ) (w : σ) (n : Nat) : Cfg σ :=
  exec L n (start w)

/-! ## A scripted environment

A concrete `Lib` that answers from fixed lists; it is used to run the driver
on explicit inputs. -/

/-- The answers of a scripted environment. -/
structure Script where
  mountRet : esp_err_t
  reports : List (esp_err_t × Nat × Nat)
  checkRet : esp_err_t
  statRet : Int
  handles : List Nat

/-- The scripted environment: the world counts the space queries and the opens
made so far; the `k`-th space query answers `reports[k]`, the `k`-th
`fopen` answers `handles[k]` (and `NULL` past the end of the list). -/
def scripted (sc : Script) : Lib (Nat × Nat) :=
  { ESP_OK := 0
    ESP_FAIL := -1
    esp_vfs_spiffs_register := fun _ w => (sc.mountRet, w)
    esp_spiffs_info := fun _ w => (sc.reports.getD w.1 (-1, 0, 0), (w.1 + 1, w.2))
    esp_spiffs_format := fun _ w => (0, w)
    esp_spiffs_check := fun _ w => (sc.checkRet, w)
    esp_vfs_spiffs_unregister := fun _ w => (0, w)
    stat := fun _ w => (sc.statRet, w)
    fopen := fun _ _ w => (sc.handles.getD w.2 NULL, (w.1, w.2 + 1))
    fseek := fun _ _ _ w => (0, w)
    fprintf := fun _ _ w => (0, w)
    fclose := fun _ w => (0, w) }

/-- Script: the file exists and the only report is 4294967295 bytes total,
none used. -/
def hugeScript : Script :=
  { mountRet := 0, reports := [(0, 4294967295, 0)], checkRet := 0, statRet := 0, handles := [] }

/-- Script: 3000 bytes in total and 900 more used after each append; the file
is absent and is created with handle 7, the opens for update answer 8, 9
and 10. -/
def fillScript : Script :=
  { mountRet := 0,
    reports := [(0, 3000, 0), (0, 3000, 900), (0, 3000, 1800), (0, 3000, 2700)],
    checkRet := 0, statRet := -1, handles := [7, 8, 9, 10] }

/-- Script: the first report has `used > total` (1000 and 2000 bytes), the
check succeeds, the file is absent and cannot be created (`fopen` answers
`NULL`). -/
def corruptScript : Script :=
  { mountRet := 0, reports := [(0, 1000, 2000)], checkRet := 0, statRet := -1, handles := [] }

/-- Script: the first report has `used > total` and the consistency check
fails with status `-1`. -/
def checkFailScript : Script :=
  { mountRet := 0, reports := [(0, 1000, 2000)], checkRet := -1, statRet := 0, handles := [] }

/-- Script: the file exists, the first report is 3000 bytes total and none
used, the open for update answers the handle 7 and the re-query after the
first append fails with status `-1`. -/
def requeryFailScript : Script :=
  { mountRet := 0, reports := [(0, 3000, 0), (-1, 0, 0)], checkRet := 0, statRet := 0,
    handles := [7] }

/-- The configuration of the loop body just before its space query, when the
open for update has succeeded (lines 116-131). -/
def afterAppend {σ : Type} (L : Lib σ) (c : Cfg σ) : Cfg σ :=
  let o := L.fopen filename "r+" c.world
  let s := L.fseek o.1 0 Whence.SEEK_END o.2
  let p := L.fprintf o.1 log_line s.2
  let k := L.fclose o.1 p.2
  { c with world := k.2, f := o.1,
           trace := c.trace ++ [Event.fopen filename "r+" o.1,
             Event.fseek o.1 0 Whence.SEEK_END, Event.fprintf o.1 log_line, Event.fclose o.1] }

/-! ## Notions used to state the properties -/

/-- The same services, with the status returned by `esp_spiffs_format`
replaced by `g` of it (its effect on the world is kept). -/
def Lib.mapFormatStatus {σ : Type} (L : Lib σ) (g : esp_err_t → esp_err_t) : Lib σ :=
  { L with esp_spiffs_format := fun l w =>
      (g (L.esp_spiffs_format l w).1, (L.esp_spiffs_format l w).2) }

/-- An event that is neither a format nor a space query that returned an
error (`ok` is the status `ESP_OK`). -/
def Event.quiet (ok : esp_err_t) : Event → Prop
  | .format => False
  | .info r _ _ => r = ok
  | _ => True

/-- The space queries. -/
def Event.isInfo : Event → Prop
  | .info _ _ _ => True
  | _ => False

/-- The consistency-check calls. -/
def Event.isCheck : Event → Prop
  | .check _ => True
  | _ => False

/-- The file operations: `stat`, `fopen`, `fseek`, `fprintf` (the write) and
`fclose`. -/
def Event.isFileOp : Event → Prop
  | .stat _ _ => True
  | .fopen _ _ _ => True
  | .fseek _ _ _ => True
  | .fprintf _ _ => True
  | .fclose _ => True
  | _ => False

/-- The existence queries (`stat`). -/
def Event.isStat : Event → Prop
  | .stat _ _ => True
  | _ => False

/-- The opens for write (`fopen` with mode `"w"`). -/
def Event.isCreate : Event → Prop
  | .fopen _ m _ => m = "w"
  | _ => False

/-- The last space query in the trace `tr` succeeded (status `ok`) and
reported `t` bytes total and `u` bytes used. -/
def LastReport (ok : esp_err_t) (tr : List Event) (t u : Nat) : Prop :=
  ∃ pre rest, tr = pre ++ Event.info ok t u :: rest ∧ ∀ e ∈ rest, ¬ Event.isInfo e

/-- The effect of one call on the list of open file handles: a successful
`fopen` adds its handle, `fclose` removes the handle it is given. -/
def track (open_ : List Nat) : Event → List Nat
  | .fopen _ _ f => if f = NULL then open_ else f :: open_
  | .fclose f => open_.erase f
  | _ => open_

/-- The file handles that are open after the calls of `tr`. -/
def openHandles (tr : List Event) : List Nat :=
  tr.foldl track []

/-- A mount, space query or consistency check that returned an error (`ok` is
the status `ESP_OK`). -/
def Event.failed (ok : esp_err_t) : Event → Prop
  | .register r => r ≠ ok
  | .info r _ _ => r ≠ ok
  | .check r => r ≠ ok
  | _ => False

instance Event.decFailed (ok : esp_err_t) : (e : Event) → Decidable (Event.failed ok e)
  | .register r => inferInstanceAs (Decidable (r ≠ ok))
  | .info r _ _ => inferInstanceAs (Decidable (r ≠ ok))
  | .check r => inferInstanceAs (Decidable (r ≠ ok))
  | .format => inferInstanceAs (Decidable False)
  | .unregister => inferInstanceAs (Decidable False)
  | .stat _ _ => inferInstanceAs (Decidable False)
  | .fopen _ _ _ => inferInstanceAs (Decidable False)
  | .fseek _ _ _ => inferInstanceAs (Decidable False)
  | .fprintf _ _ => inferInstanceAs (Decidable False)
  | .fclose _ => inferInstanceAs (Decidable False)

/-- Every successful open for update in `tr` is made with no handle open and
is followed, in this order, by the seek to the end of the file, the write of
the log line, the close of the handle and a space query. -/
def Iterations (tr : List Event) : Prop :=
  ∀ i h, tr[i]? = some (Event.fopen filename "r+" h) → h ≠ NULL →
    openHandles (tr.take i) = [] ∧
    tr[i + 1]? = some (Event.fseek h 0 Whence.SEEK_END) ∧
    tr[i + 2]? = some (Event.fprintf h log_line) ∧
    tr[i + 3]? = some (Event.fclose h) ∧
    ∃ r t u, tr[i + 4]? = some (Event.info r t u)

/-- The free space `total - used` of each space report of the trace, in the
order of the queries. -/
def frees (tr : List Event) : List Nat :=
  tr.filterMap fun e =>
    match e with
    | .info _ t u => some (t - u)
    | _ => none

/-- The answer recorded in an event is the one of a cooperative environment:
the mount succeeded, the space query succeeded with `used ≤ total`, the open
returned a valid handle (`ok` is the status `ESP_OK`). -/
def Event.answeredWell (ok : esp_err_t) : Event → Prop
  | .register r => r = ok
  | .info r t u => r = ok ∧ u ≤ t
  | .fopen _ _ f => f ≠ NULL
  | _ => True

instance Event.decAnsweredWell (ok : esp_err_t) :
    (e : Event) → Decidable (Event.answeredWell ok e)
  | .register r => inferInstanceAs (Decidable (r = ok))
  | .info r t u => inferInstanceAs (Decidable (r = ok ∧ u ≤ t))
  | .fopen _ _ f => inferInstanceAs (Decidable (f ≠ NULL))
  | .format => inferInstanceAs (Decidable True)
  | .check _ => inferInstanceAs (Decidable True)
  | .unregister => inferInstanceAs (Decidable True)
  | .stat _ _ => inferInstanceAs (Decidable True)
  | .fseek _ _ _ => inferInstanceAs (Decidable True)
  | .fprintf _ _ => inferInstanceAs (Decidable True)
  | .fclose _ => inferInstanceAs (Decidable True)

/-- Each number of the list is strictly less than the one before it. -/
def Decreasing : List Nat → Prop
  | [] => True
  | [_] => True
  | a :: b :: rest => b < a ∧ Decreasing (b :: rest)

instance Decreasing.dec : (l : List Nat) → Decidable (Decreasing l)
  | [] => isTrue trivial
  | [_] => isTrue trivial
  | a :: b :: rest =>
    have := Decreasing.dec (b :: rest)
    inferInstanceAs (Decidable (b < a ∧ Decreasing (b :: rest)))

/-- The trace `tr` is one of a cooperative environment: every answer in it is
a good one and every space report shows strictly less free space than the
report before it. -/
def Cooperative (ok : esp_err_t) (tr : List Event) : Prop :=
  (∀ e ∈ tr, Event.answeredWell ok e) ∧ Decreasing (frees tr)

instance Cooperative.dec (ok : esp_err_t) (tr : List Event) : Decidable (Cooperative ok tr) :=
  inferInstanceAs (Decidable (_ ∧ _))

/-! ## General facts about runs -/

theorem exec_succ {σ : Type} (L : Lib σ) (n : Nat) (c : Cfg σ) :
    exec L (n + 1) c = step L (exec L n c) := by
  induction n generalizing c with
  | zero => rfl
  | succ k ih => exact ih (step L c)

theorem exec_add {σ : Type} (L : Lib σ) (m n : Nat) (c : Cfg σ) :
    exec L (m + n) c = exec L n (exec L m c) := by
  induction m generalizing c with
  | zero => simp [exec]
  | succ k ih =>
    have h : k + 1 + n = (k + n) + 1 := by omega
    rw [h]
    exact ih (step L c)

theorem step_of_done {σ : Type} (L : Lib σ) (c : Cfg σ) (h : c.pc = .done) :
    step L c = c := by
  simp [step, h]

theorem exec_of_done {σ : Type} (L : Lib σ) (n : Nat) (c : Cfg σ) (h : c.pc = .done) :
    exec L n c = c := by
  induction n with
  | zero => rfl
  | succ k ih => rw [exec_succ, ih, step_of_done L c h]

theorem exec_of_fixed {σ : Type} (L : Lib σ) (n : Nat) (c : Cfg σ) (h : step L c = c) :
    exec L n c = c := by
  induction n with
  | zero => rfl
  | succ k ih => rw [exec_succ, ih, h]

theorem app_main_succ {σ : Type} (L : Lib σ) (w : σ) (n : Nat) :
    app_main L w (n + 1) = step L (app_main L w n) :=
  exec_succ L n (start w)

theorem app_main_add {σ : Type} (L : Lib σ) (w : σ) (m n : Nat) :
    app_main L w (m + n) = exec L n (app_main L w m) :=
  exec_add L m n (start w)

/-! ## Mount failure -/

/-- C1: when the mount call returns any status other than `ESP_OK`, the run
has returned after its first step and, however long it is observed, the mount
call is the only service call it has made. -/
theorem mount_failure_returns {σ : Type} (L : Lib σ) (w : σ)
    (h : (L.esp_vfs_spiffs_register conf w).1 ≠ L.ESP_OK) (n : Nat) :
    (app_main L w (n + 1)).pc = .done ∧
    (app_main L w (n + 1)).trace = [Event.register (L.esp_vfs_spiffs_register conf w).1] := by
  have h1 : (step L (start w)).pc = .done := by
    simp [step, start, stepMount, h]
  have h2 : (step L (start w)).trace = [Event.register (L.esp_vfs_spiffs_register conf w).1] := by
    simp [step, start, stepMount, h]
  have h3 : app_main L w (n + 1) = step L (start w) := by
    show exec L n (step L (start w)) = _
    exact exec_of_done L n _ h1
  rw [h3]
  exact ⟨h1, h2⟩

/-- The partition is not found (status `0x105`): the run is the single mount
call. -/
theorem mount_failure_returns_witness :
    (0x105 : Int) ≠ 0 ∧
    (app_main (scripted ⟨0x105, [], 0, 0, []⟩) (0, 0) (3 + 1)).pc = .done ∧
    (app_main (scripted ⟨0x105, [], 0, 0, []⟩) (0, 0) (3 + 1)).trace = [Event.register 0x105] :=
  ⟨by decide, mount_failure_returns (scripted ⟨0x105, [], 0, 0, []⟩) (0, 0) (by decide) 3⟩

/-! ## Open failure inside the loop -/

/-- C9: if the run is at the body of the `while` and the open for update
returns `NULL`, the next configuration is at the test of the `for`, the only
call added is that `fopen`, and this configuration is its own successor: at
every later observation the run is in that same configuration, which has not
returned and has made no further call. -/
theorem open_failure_spins {σ : Type} (L : Lib σ) (w : σ) (n : Nat)
    (hpc : (app_main L w n).pc = .body)
    (hnull : (L.fopen filename "r+" (app_main L w n).world).1 = NULL) :
    (app_main L w (n + 1)).pc = .spin ∧
    (app_main L w (n + 1)).trace =
      (app_main L w n).trace ++ [Event.fopen filename "r+" NULL] ∧
    step L (app_main L w (n + 1)) = app_main L w (n + 1) ∧
    ∀ k, app_main L w (n + 1 + k) = app_main L w (n + 1) := by
  have hs : app_main L w (n + 1) = stepBody L (app_main L w n) := by
    rw [app_main_succ]; simp [step, hpc]
  have hfix : step L (app_main L w (n + 1)) = app_main L w (n + 1) := by
    rw [hs]; simp [step, stepBody, hnull, stepSpin]
  refine ⟨?_, ?_, hfix, ?_⟩
  · rw [hs]; simp [stepBody, hnull]
  · rw [hs]; simp [stepBody, hnull]
  · intro k
    rw [app_main_add]
    exact exec_of_fixed L k _ hfix

/-! ## The steps, block by block -/


theorem to_size_t_lt (n : Nat) : to_size_t n < SIZE_MOD :=
  Nat.mod_lt _ (by decide)

theorem step_at_mount {σ : Type} (L : Lib σ) (c : Cfg σ) (hpc : c.pc = .mount) :
    ∃ r w, step L c = { c with world := w, ret := r, trace := c.trace ++ [Event.register r],
                               pc := if r = L.ESP_OK then .query else .done } := by
  refine ⟨(L.esp_vfs_spiffs_register conf c.world).1, (L.esp_vfs_spiffs_register conf c.world).2, ?_⟩
  simp only [step, hpc, stepMount]
  split_ifs <;> simp_all

theorem step_at_query {σ : Type} (L : Lib σ) (c : Cfg σ) (hpc : c.pc = .query) :
    ∃ r t u w, t < SIZE_MOD ∧ u < SIZE_MOD ∧
      ((r = L.ESP_OK ∧
        step L c = { c with world := w, ret := r, total := t, used := u,
                            trace := c.trace ++ [Event.info r t u], pc := .guard }) ∨
       (r ≠ L.ESP_OK ∧
        step L c = { c with world := w, ret := r, total := t, used := u,
                            trace := c.trace ++ [Event.info r t u, Event.format],
                            pc := .done })) := by
  by_cases h : (L.esp_spiffs_info conf.partition_label c.world).1.1 = L.ESP_OK
  · refine ⟨_, to_size_t (L.esp_spiffs_info conf.partition_label c.world).1.2.1,
      to_size_t (L.esp_spiffs_info conf.partition_label c.world).1.2.2,
      (L.esp_spiffs_info conf.partition_label c.world).2,
      to_size_t_lt _, to_size_t_lt _, Or.inl ⟨h, ?_⟩⟩
    simp [step, hpc, stepQuery, callInfo, h]
  · refine ⟨_, to_size_t (L.esp_spiffs_info conf.partition_label c.world).1.2.1,
      to_size_t (L.esp_spiffs_info conf.partition_label c.world).1.2.2,
      (L.esp_spiffs_format conf.partition_label
        (L.esp_spiffs_info conf.partition_label c.world).2).2,
      to_size_t_lt _, to_size_t_lt _, Or.inr ⟨h, ?_⟩⟩
    simp [step, hpc, stepQuery, callInfo, callFormat, h]

theorem step_at_guard {σ : Type} (L : Lib σ) (c : Cfg σ) (hpc : c.pc = .guard) :
    (c.used ≤ c.total ∧ step L c = { c with pc := .create }) ∨
    (c.total < c.used ∧ ∃ r w,
      step L c = { c with world := w, ret := r, trace := c.trace ++ [Event.check r],
                          pc := if r = L.ESP_OK then .create else .done }) := by
  by_cases h : c.used > c.total
  · refine Or.inr ⟨h, (L.esp_spiffs_check conf.partition_label c.world).1,
      (L.esp_spiffs_check conf.partition_label c.world).2, ?_⟩
    simp only [step, hpc, stepGuard, h]
    split_ifs <;> simp_all
  · refine Or.inl ⟨by omega, ?_⟩
    simp [step, hpc, stepGuard, h]

theorem step_at_create {σ : Type} (L : Lib σ) (c : Cfg σ) (hpc : c.pc = .create) :
    ∃ r,
      (r = 0 ∧ ∃ w,
        step L c = { c with available_space := to_int32 (size_sub c.total c.used),
                            ret := L.ESP_OK, world := w,
                            trace := c.trace ++ [Event.stat filename r], pc := .loop }) ∨
      (r ≠ 0 ∧ ∃ h e w,
        step L c = { c with available_space := to_int32 (size_sub c.total c.used),
                            ret := e, f := h, world := w,
                            trace := c.trace ++ [Event.stat filename r,
                              Event.fopen filename "w" h, Event.fclose h],
                            pc := .loop }) := by
  refine ⟨(L.stat filename c.world).1, ?_⟩
  by_cases h : (L.stat filename c.world).1 = 0
  · refine Or.inl ⟨h, (L.stat filename c.world).2, ?_⟩
    simp [step, hpc, stepCreate, h]
  · by_cases hn : (L.fopen filename "w" (L.stat filename c.world).2).1 = NULL
    · refine Or.inr ⟨h, (L.fopen filename "w" (L.stat filename c.world).2).1, L.ESP_FAIL,
        (L.fclose (L.fopen filename "w" (L.stat filename c.world).2).1
          (L.fopen filename "w" (L.stat filename c.world).2).2).2, ?_⟩
      simp [step, hpc, stepCreate, h, hn]
    · refine Or.inr ⟨h, (L.fopen filename "w" (L.stat filename c.world).2).1, L.ESP_OK,
        (L.fclose (L.fopen filename "w" (L.stat filename c.world).2).1
          (L.fopen filename "w" (L.stat filename c.world).2).2).2, ?_⟩
      simp [step, hpc, stepCreate, h, hn]

theorem step_at_loop {σ : Type} (L : Lib σ) (c : Cfg σ) (hpc : c.pc = .loop) :
    (1000 < c.available_space ∧ step L c = { c with pc := .body }) ∨
    (c.available_space ≤ 1000 ∧ ∃ w,
      step L c = { c with world := w, trace := c.trace ++ [Event.unregister], pc := .done }) := by
  by_cases h : c.available_space > 1000
  · exact Or.inl ⟨h, by simp [step, hpc, stepLoop, h]⟩
  · exact Or.inr ⟨by omega, (L.esp_vfs_spiffs_unregister conf.partition_label c.world).2,
      by simp [step, hpc, stepLoop, h]⟩

theorem step_at_body {σ : Type} (L : Lib σ) (c : Cfg σ) (hpc : c.pc = .body) :
    (∃ w, step L c = { c with world := w, f := NULL, gdb := 1,
                              trace := c.trace ++ [Event.fopen filename "r+" NULL],
                              pc := .spin }) ∨
    (∃ h r t u w, h ≠ NULL ∧ t < SIZE_MOD ∧ u < SIZE_MOD ∧
      ((r = L.ESP_OK ∧
        step L c = { c with world := w, f := h, ret := r, total := t, used := u,
                            available_space := to_int32 (size_sub t u),
                            trace := c.trace ++ [Event.fopen filename "r+" h,
                              Event.fseek h 0 Whence.SEEK_END, Event.fprintf h log_line,
                              Event.fclose h, Event.info r t u],
                            pc := .loop }) ∨
       (r ≠ L.ESP_OK ∧
        step L c = { c with world := w, f := h, ret := r, total := t, used := u,
                            trace := c.trace ++ [Event.fopen filename "r+" h,
                              Event.fseek h 0 Whence.SEEK_END, Event.fprintf h log_line,
                              Event.fclose h, Event.info r t u, Event.format],
                            pc := .done }))) := by
  by_cases hn : (L.fopen filename "r+" c.world).1 = NULL
  · refine Or.inl ⟨(L.fopen filename "r+" c.world).2, ?_⟩
    simp [step, hpc, stepBody, hn]
  · right
    have hs : step L c =
        (if (callInfo L (afterAppend L c)).ret ≠ L.ESP_OK then
          { callFormat L (callInfo L (afterAppend L c)) with pc := .done }
        else
          { callInfo L (afterAppend L c) with
              available_space := to_int32 (size_sub (callInfo L (afterAppend L c)).total
                (callInfo L (afterAppend L c)).used), pc := .loop }) := by
      simp [step, hpc, stepBody, hn, afterAppend]
    refine ⟨(L.fopen filename "r+" c.world).1, (callInfo L (afterAppend L c)).ret,
      (callInfo L (afterAppend L c)).total, (callInfo L (afterAppend L c)).used, ?_⟩
    by_cases h : (callInfo L (afterAppend L c)).ret = L.ESP_OK
    · refine ⟨(callInfo L (afterAppend L c)).world, hn, to_size_t_lt _, to_size_t_lt _,
        Or.inl ⟨h, ?_⟩⟩
      rw [hs]
      simp [h]
      simp [callInfo, afterAppend]
      simpa [callInfo, afterAppend] using h
    · refine ⟨(callFormat L (callInfo L (afterAppend L c))).world, hn, to_size_t_lt _,
        to_size_t_lt _, Or.inr ⟨h, ?_⟩⟩
      rw [hs]
      simp [h]
      simp [callInfo, callFormat, afterAppend]

theorem step_at_spin {σ : Type} (L : Lib σ) (c : Cfg σ) (hpc : c.pc = .spin) :
    (c.gdb = 1 ∧ step L c = c) ∨ (c.gdb ≠ 1 ∧ step L c = { c with pc := .loop }) := by
  by_cases h : c.gdb = 1
  · refine Or.inl ⟨h, ?_⟩
    cases c
    simp_all [step, stepSpin]
  · exact Or.inr ⟨h, by simp [step, hpc, stepSpin, h]⟩


/-- Case analysis on one step: a property of a configuration and its successor
holds for every step as soon as it holds for every branch of every basic
block, whatever the services answer. -/
theorem step_cases {σ : Type} (L : Lib σ) (P : Cfg σ → Cfg σ → Prop)
    (mount_ok : ∀ (c : Cfg σ) (w : σ), c.pc = .mount →
      P c { c with world := w, ret := L.ESP_OK, trace := c.trace ++ [Event.register L.ESP_OK],
                   pc := .query })
    (mount_err : ∀ (c : Cfg σ) (r : esp_err_t) (w : σ), c.pc = .mount → r ≠ L.ESP_OK →
      P c { c with world := w, ret := r, trace := c.trace ++ [Event.register r], pc := .done })
    (query_ok : ∀ (c : Cfg σ) (t u : Nat) (w : σ), c.pc = .query → t < SIZE_MOD → u < SIZE_MOD →
      P c { c with world := w, ret := L.ESP_OK, total := t, used := u,
                   trace := c.trace ++ [Event.info L.ESP_OK t u], pc := .guard })
    (query_err : ∀ (c : Cfg σ) (r : esp_err_t) (t u : Nat) (w : σ), c.pc = .query → r ≠ L.ESP_OK →
      P c { c with world := w, ret := r, total := t, used := u,
                   trace := c.trace ++ [Event.info r t u, Event.format], pc := .done })
    (guard_skip : ∀ (c : Cfg σ), c.pc = .guard → c.used ≤ c.total → P c { c with pc := .create })
    (guard_ok : ∀ (c : Cfg σ) (w : σ), c.pc = .guard → c.total < c.used →
      P c { c with world := w, ret := L.ESP_OK, trace := c.trace ++ [Event.check L.ESP_OK],
                   pc := .create })
    (guard_err : ∀ (c : Cfg σ) (r : esp_err_t) (w : σ), c.pc = .guard → c.total < c.used → r ≠ L.ESP_OK →
      P c { c with world := w, ret := r, trace := c.trace ++ [Event.check r], pc := .done })
    (create_old : ∀ (c : Cfg σ) (w : σ), c.pc = .create →
      P c { c with available_space := to_int32 (size_sub c.total c.used), ret := L.ESP_OK,
                   world := w, trace := c.trace ++ [Event.stat filename 0], pc := .loop })
    (create_new : ∀ (c : Cfg σ) (r : Int) (h : Nat) (e : esp_err_t) (w : σ), c.pc = .create → r ≠ 0 →
      P c { c with available_space := to_int32 (size_sub c.total c.used), ret := e, f := h,
                   world := w,
                   trace := c.trace ++ [Event.stat filename r, Event.fopen filename "w" h,
                     Event.fclose h],
                   pc := .loop })
    (loop_enter : ∀ (c : Cfg σ), c.pc = .loop → 1000 < c.available_space → P c { c with pc := .body })
    (loop_exit : ∀ (c : Cfg σ) (w : σ), c.pc = .loop → c.available_space ≤ 1000 →
      P c { c with world := w, trace := c.trace ++ [Event.unregister], pc := .done })
    (body_null : ∀ (c : Cfg σ) (w : σ), c.pc = .body →
      P c { c with world := w, f := NULL, gdb := 1,
                   trace := c.trace ++ [Event.fopen filename "r+" NULL], pc := .spin })
    (body_ok : ∀ (c : Cfg σ) (h t u : Nat) (w : σ), c.pc = .body → h ≠ NULL → t < SIZE_MOD → u < SIZE_MOD →
      P c { c with world := w, f := h, ret := L.ESP_OK, total := t, used := u,
                   available_space := to_int32 (size_sub t u),
                   trace := c.trace ++ [Event.fopen filename "r+" h,
                     Event.fseek h 0 Whence.SEEK_END, Event.fprintf h log_line,
                     Event.fclose h, Event.info L.ESP_OK t u],
                   pc := .loop })
    (body_err : ∀ (c : Cfg σ) (h : Nat) (r : esp_err_t) (t u : Nat) (w : σ), c.pc = .body → h ≠ NULL → r ≠ L.ESP_OK →
      P c { c with world := w, f := h, ret := r, total := t, used := u,
                   trace := c.trace ++ [Event.fopen filename "r+" h,
                     Event.fseek h 0 Whence.SEEK_END, Event.fprintf h log_line,
                     Event.fclose h, Event.info r t u, Event.format],
                   pc := .done })
    (spin_stay : ∀ (c : Cfg σ), c.pc = .spin → c.gdb = 1 → P c c)
    (spin_leave : ∀ (c : Cfg σ), c.pc = .spin → c.gdb ≠ 1 → P c { c with pc := .loop })
    (finished : ∀ (c : Cfg σ), c.pc = .done → P c c) :
    ∀ (c : Cfg σ), P c (step L c) := by
  intro c
  cases hpc : c.pc with
  | mount =>
    obtain ⟨r, w, e⟩ := step_at_mount L c hpc
    rw [e]
    by_cases hr : r = L.ESP_OK
    · subst hr
      simpa using mount_ok c w hpc
    · simpa [hr] using mount_err c r w hpc hr
  | query =>
    obtain ⟨r, t, u, w, ht, hu, ⟨hr, e⟩ | ⟨hr, e⟩⟩ := step_at_query L c hpc
    · rw [e, hr]; exact query_ok c t u w hpc ht hu
    · rw [e]; exact query_err c r t u w hpc hr
  | guard =>
    obtain ⟨hle, e⟩ | ⟨hlt, r, w, e⟩ := step_at_guard L c hpc
    · rw [e]; exact guard_skip c hpc hle
    · rw [e]
      by_cases hr : r = L.ESP_OK
      · subst hr
        simpa using guard_ok c w hpc hlt
      · simpa [hr] using guard_err c r w hpc hlt hr
  | create =>
    obtain ⟨r, ⟨hr, w, e⟩ | ⟨hr, h, e', w, e⟩⟩ := step_at_create L c hpc
    · rw [e, hr]; exact create_old c w hpc
    · rw [e]; exact create_new c r h e' w hpc hr
  | loop =>
    obtain ⟨h, e⟩ | ⟨h, w, e⟩ := step_at_loop L c hpc
    · rw [e]; exact loop_enter c hpc h
    · rw [e]; exact loop_exit c w hpc h
  | body =>
    obtain ⟨w, e⟩ | ⟨h, r, t, u, w, hn, ht, hu, ⟨hr, e⟩ | ⟨hr, e⟩⟩ := step_at_body L c hpc
    · rw [e]; exact body_null c w hpc
    · rw [e, hr]; exact body_ok c h t u w hpc hn ht hu
    · rw [e]; exact body_err c h r t u w hpc hn hr
  | spin =>
    obtain ⟨h, e⟩ | ⟨h, e⟩ := step_at_spin L c hpc
    · rw [e]; exact spin_stay c hpc h
    · rw [e]; exact spin_leave c hpc h
  | done =>
    rw [step_of_done L c hpc]; exact finished c hpc

/-- A property that holds at the entry of `app_main` and is kept by every step
holds at every observation of the run. -/
theorem run_invariant {σ : Type} (L : Lib σ) (w : σ) (Inv : Cfg σ → Prop)
    (h0 : Inv (start w)) (hs : ∀ c, Inv c → Inv (step L c)) (n : Nat) :
    Inv (app_main L w n) := by
  induction n with
  | zero => exact h0
  | succ k ih => rw [app_main_succ]; exact hs _ ih

/-- The file exists, the first open for update fails: the run reaches the body
of the `while` after five steps and then stays at the test of the `for`. -/
theorem open_failure_spins_witness :
    (app_main (scripted ⟨0, [(0, 3000, 0)], 0, 0, []⟩) (0, 0) 5).pc = .body ∧
    (app_main (scripted ⟨0, [(0, 3000, 0)], 0, 0, []⟩) (0, 0) (5 + 1)).pc = .spin ∧
    (app_main (scripted ⟨0, [(0, 3000, 0)], 0, 0, []⟩) (0, 0) (5 + 1)).trace =
      (app_main (scripted ⟨0, [(0, 3000, 0)], 0, 0, []⟩) (0, 0) 5).trace ++
        [Event.fopen filename "r+" NULL] ∧
    step (scripted ⟨0, [(0, 3000, 0)], 0, 0, []⟩)
        (app_main (scripted ⟨0, [(0, 3000, 0)], 0, 0, []⟩) (0, 0) (5 + 1)) =
      app_main (scripted ⟨0, [(0, 3000, 0)], 0, 0, []⟩) (0, 0) (5 + 1) ∧
    ∀ k, app_main (scripted ⟨0, [(0, 3000, 0)], 0, 0, []⟩) (0, 0) (5 + 1 + k) =
      app_main (scripted ⟨0, [(0, 3000, 0)], 0, 0, []⟩) (0, 0) (5 + 1) :=
  ⟨by decide,
   open_failure_spins (scripted ⟨0, [(0, 3000, 0)], 0, 0, []⟩) (0, 0) 5 (by decide) (by decide)⟩

/-! ## Space-query failure -/

/-- Until a space query fails the trace has no format and no failed query;
when one fails the run has returned and the trace ends with that query and
one format. -/
theorem quiet_or_formatted {σ : Type} (L : Lib σ) (w : σ) (n : Nat) :
    (∀ e ∈ (app_main L w n).trace, Event.quiet L.ESP_OK e) ∨
    ((app_main L w n).pc = .done ∧ ∃ pre r t u, r ≠ L.ESP_OK ∧
      (app_main L w n).trace = pre ++ [Event.info r t u, Event.format] ∧
      ∀ e ∈ pre, Event.quiet L.ESP_OK e) := by
  refine run_invariant L w
    (fun (c : Cfg σ) => (∀ e ∈ c.trace, Event.quiet L.ESP_OK e) ∨
      (c.pc = .done ∧ ∃ pre r t u, r ≠ L.ESP_OK ∧
        c.trace = pre ++ [Event.info r t u, Event.format] ∧
        ∀ e ∈ pre, Event.quiet L.ESP_OK e)) ?_ ?_ n
  · left; simp [start]
  · apply step_cases L (fun (c c' : Cfg σ) =>
      ((∀ e ∈ c.trace, Event.quiet L.ESP_OK e) ∨
        (c.pc = .done ∧ ∃ pre r t u, r ≠ L.ESP_OK ∧
          c.trace = pre ++ [Event.info r t u, Event.format] ∧
          ∀ e ∈ pre, Event.quiet L.ESP_OK e)) →
      ((∀ e ∈ c'.trace, Event.quiet L.ESP_OK e) ∨
        (c'.pc = .done ∧ ∃ pre r t u, r ≠ L.ESP_OK ∧
          c'.trace = pre ++ [Event.info r t u, Event.format] ∧
          ∀ e ∈ pre, Event.quiet L.ESP_OK e)))
    case query_err =>
      intro c r t u w hpc hr hc
      rcases hc with hq | ⟨hd, _⟩
      · exact Or.inr ⟨rfl, c.trace, r, t, u, hr, rfl, hq⟩
      · simp [hpc] at hd
    case body_err =>
      intro c h r t u w hpc hn hr hc
      rcases hc with hq | ⟨hd, _⟩
      · refine Or.inr ⟨rfl, c.trace ++ [Event.fopen filename "r+" h,
          Event.fseek h 0 Whence.SEEK_END, Event.fprintf h log_line, Event.fclose h],
          r, t, u, hr, by simp, ?_⟩
        intro e he
        simp only [List.mem_append, List.mem_cons, List.mem_singleton, List.not_mem_nil,
          or_false] at he
        rcases he with he | he | he | he | he
        · exact hq e he
        all_goals subst he; simp [Event.quiet]
      · simp [hpc] at hd
    case finished => intro c _ hc; exact hc
    case spin_stay => intro c _ _ hc; exact hc
    all_goals
      intros
      rename_i hc
      rcases hc with hq | ⟨hd, _⟩
      · left
        intro e he
        simp only [List.mem_append, List.mem_cons, List.mem_singleton, List.not_mem_nil,
          or_false] at he
        first
          | exact hq e he
          | (rcases he with he | he
             · exact hq e he
             · subst he; simp [Event.quiet])
          | (rcases he with he | he | he | he
             · exact hq e he
             all_goals subst he; simp [Event.quiet])
          | (rcases he with he | he | he | he | he | he
             · exact hq e he
             all_goals subst he; simp [Event.quiet])
      · simp_all

theorem step_mapFormatStatus {σ : Type} (L : Lib σ) (g : esp_err_t → esp_err_t) (c : Cfg σ) :
    step (L.mapFormatStatus g) c = step L c := by
  cases hpc : c.pc <;> simp only [step, hpc] <;> rfl

theorem exec_mapFormatStatus {σ : Type} (L : Lib σ) (g : esp_err_t → esp_err_t) (n : Nat)
    (c : Cfg σ) : exec (L.mapFormatStatus g) n c = exec L n c := by
  induction n generalizing c with
  | zero => rfl
  | succ k ih => simp only [exec, step_mapFormatStatus, ih]

/-- C2: whenever a space query of the run has returned an error (at the first
query or at a re-query in the loop), the next call is a format, that format is
the last call of the run and the only format in it, the run has returned and
stays as it is, and the run is the same whatever status the format returns. -/
theorem query_failure_formats {σ : Type} (L : Lib σ) (w : σ) (n i : Nat)
    (r : esp_err_t) (t u : Nat)
    (hi : (app_main L w n).trace[i]? = some (Event.info r t u)) (hr : r ≠ L.ESP_OK) :
    (app_main L w n).trace[i + 1]? = some Event.format ∧
    (app_main L w n).trace.length = i + 2 ∧
    (∀ j, (app_main L w n).trace[j]? = some Event.format → j = i + 1) ∧
    (app_main L w n).pc = .done ∧
    (∀ m, app_main L w (n + m) = app_main L w n) ∧
    ∀ g, app_main (L.mapFormatStatus g) w n = app_main L w n := by
  rcases quiet_or_formatted L w n with hq | ⟨hd, pre, r', t', u', hr', htr, hpre⟩
  · have := hq _ (List.getElem?_mem hi)
    simp [Event.quiet] at this
    exact absurd this hr
  · have hlen : i = pre.length := by
      rcases Nat.lt_trichotomy i pre.length with h | h | h
      · rw [htr, List.getElem?_append_left h] at hi
        have := hpre _ (List.getElem?_mem hi)
        simp [Event.quiet] at this
        exact absurd this hr
      · exact h
      · rw [htr, List.getElem?_append_right (by omega)] at hi
        obtain ⟨k, hk⟩ : ∃ k, i - pre.length = k + 1 := ⟨i - pre.length - 1, by omega⟩
        rw [hk] at hi
        cases k <;> simp at hi
    refine ⟨?_, ?_, ?_, hd, ?_, ?_⟩
    · rw [htr, hlen, List.getElem?_append_right (by omega)]
      simp
    · rw [htr, hlen]; simp
    · intro j hj
      rcases Nat.lt_trichotomy j (pre.length + 1) with h | h | h
      · rw [htr] at hj
        by_cases h2 : j < pre.length
        · rw [List.getElem?_append_left h2] at hj
          have := hpre _ (List.getElem?_mem hj)
          simp [Event.quiet] at this
        · have : j = pre.length := by omega
          subst this
          rw [List.getElem?_append_right (le_refl _)] at hj
          simp at hj
      · omega
      · rw [htr, List.getElem?_append_right (by omega)] at hj
        obtain ⟨k, hk⟩ : ∃ k, j - pre.length = k + 2 := ⟨j - pre.length - 2, by omega⟩
        rw [hk] at hj
        simp at hj
    · intro m
      rw [app_main_add]
      exact exec_of_done L m _ hd
    · intro g
      exact exec_mapFormatStatus L g n (start w)

/-- The second space query (the re-query of the first loop iteration) fails
with status `-1`: the trace ends with that query and one format. -/
theorem query_failure_formats_witness :
    (app_main (scripted ⟨0, [(0, 3000, 0), (-1, 0, 0)], 0, 0, [7]⟩) (0, 0) 6).trace[7]? =
      some (Event.info (-1) 0 0) ∧
    (-1 : Int) ≠ (scripted ⟨0, [(0, 3000, 0), (-1, 0, 0)], 0, 0, [7]⟩).ESP_OK ∧
    ((app_main (scripted ⟨0, [(0, 3000, 0), (-1, 0, 0)], 0, 0, [7]⟩) (0, 0) 6).trace[7 + 1]? =
        some Event.format ∧
      (app_main (scripted ⟨0, [(0, 3000, 0), (-1, 0, 0)], 0, 0, [7]⟩) (0, 0) 6).trace.length =
        7 + 2 ∧
      (∀ j, (app_main (scripted ⟨0, [(0, 3000, 0), (-1, 0, 0)], 0, 0, [7]⟩) (0, 0) 6).trace[j]? =
        some Event.format → j = 7 + 1) ∧
      (app_main (scripted ⟨0, [(0, 3000, 0), (-1, 0, 0)], 0, 0, [7]⟩) (0, 0) 6).pc = .done ∧
      (∀ m, app_main (scripted ⟨0, [(0, 3000, 0), (-1, 0, 0)], 0, 0, [7]⟩) (0, 0) (6 + m) =
        app_main (scripted ⟨0, [(0, 3000, 0), (-1, 0, 0)], 0, 0, [7]⟩) (0, 0) 6) ∧
      ∀ g, app_main ((scripted ⟨0, [(0, 3000, 0), (-1, 0, 0)], 0, 0, [7]⟩).mapFormatStatus g)
          (0, 0) 6 =
        app_main (scripted ⟨0, [(0, 3000, 0), (-1, 0, 0)], 0, 0, [7]⟩) (0, 0) 6) :=
  ⟨by decide, by decide,
   query_failure_formats (scripted ⟨0, [(0, 3000, 0), (-1, 0, 0)], 0, 0, [7]⟩) (0, 0) 6 7
     (-1) 0 0 (by decide) (by decide)⟩

/-! ## The first steps of a run -/

/-- Events emitted from a set of program points: if the set is closed under
`step` and every step from it appends only events in `E`, so does every run
from it. -/
theorem exec_emits {σ : Type} (L : Lib σ) (S : Pc → Prop) (E : Event → Prop)
    (hstep : ∀ c : Cfg σ, S c.pc →
      S (step L c).pc ∧ ∃ evs, (step L c).trace = c.trace ++ evs ∧ ∀ e ∈ evs, E e)
    (n : Nat) (c : Cfg σ) (hc : S c.pc) :
    S (exec L n c).pc ∧ ∃ evs, (exec L n c).trace = c.trace ++ evs ∧ ∀ e ∈ evs, E e := by
  induction n with
  | zero => exact ⟨hc, [], by simp [exec], by simp⟩
  | succ k ih =>
    obtain ⟨hS, evs, htr, hE⟩ := ih
    obtain ⟨hS', evs', htr', hE'⟩ := hstep _ hS
    rw [exec_succ]
    refine ⟨hS', evs ++ evs', by rw [htr', htr, List.append_assoc], ?_⟩
    intro e he
    rcases List.mem_append.1 he with h | h
    · exact hE e h
    · exact hE' e h

/-- After one step the trace is the mount call; the run goes on to the first
space query exactly when the mount returned `ESP_OK`. -/
theorem run_one {σ : Type} (L : Lib σ) (w : σ) :
    ∃ r w1, app_main L w 1 =
      { start w with world := w1, ret := r, trace := [Event.register r],
                     pc := if r = L.ESP_OK then .query else .done } := by
  obtain ⟨r, w1, e⟩ := step_at_mount L (start w) rfl
  exact ⟨r, w1, by rw [show app_main L w 1 = step L (start w) from rfl, e]; simp [start]⟩

/-- A run whose first two steps made a successful mount and a successful
space query is at the consistency guard, with the report in `total` and
`used`. -/
theorem run_two {σ : Type} (L : Lib σ) (w : σ) (t u : Nat)
    (h2 : (app_main L w 2).trace = [Event.register L.ESP_OK, Event.info L.ESP_OK t u]) :
    (app_main L w 2).pc = .guard ∧ (app_main L w 2).total = t ∧ (app_main L w 2).used = u ∧
    t < SIZE_MOD ∧ u < SIZE_MOD := by
  obtain ⟨r, w1, e1⟩ := run_one L w
  have e2 : app_main L w 2 = step L (app_main L w 1) := app_main_succ L w 1
  by_cases hr : r = L.ESP_OK
  · have hpc : (app_main L w 1).pc = .query := by rw [e1]; simp [hr]
    obtain ⟨r2, t2, u2, w2, ht, hu, ⟨hr2, e⟩ | ⟨hr2, e⟩⟩ := step_at_query L _ hpc
    · rw [e2, e] at h2 ⊢
      rw [e1] at h2
      simp at h2
      obtain ⟨-, -, h3, h4⟩ := h2
      subst h3; subst h4
      simp [ht, hu]
    · rw [e2, e, e1] at h2
      simp at h2
  · have hpc : (app_main L w 1).pc = .done := by rw [e1]; simp [hr]
    rw [e2, step_of_done L _ hpc, e1] at h2
    simp at h2
/-- The trace only grows. -/
theorem trace_mono {σ : Type} (L : Lib σ) (w : σ) (m n : Nat) (h : m ≤ n) :
    ∃ evs, (app_main L w n).trace = (app_main L w m).trace ++ evs := by
  obtain ⟨k, rfl⟩ : ∃ k, n = m + k := ⟨n - m, by omega⟩
  rw [app_main_add]
  have hstep : ∀ c : Cfg σ, ∃ evs, (step L c).trace = c.trace ++ evs := by
    apply step_cases L (fun (c c' : Cfg σ) => ∃ evs, c'.trace = c.trace ++ evs)
    all_goals
      intros
      first
        | exact ⟨_, rfl⟩
        | exact ⟨[], (List.append_nil _).symm⟩
  obtain ⟨-, evs, h1, -⟩ := exec_emits L (fun _ => True) (fun _ => True)
    (fun c _ => ⟨trivial, (hstep c).imp fun _ h => ⟨h, fun _ _ => trivial⟩⟩)
    k (app_main L w m) trivial
  exact ⟨evs, h1⟩

/-- From the open-or-create step on, the run makes no consistency check. -/
theorem no_check_from_create {σ : Type} (L : Lib σ) (n : Nat) (c : Cfg σ)
    (hc : c.pc ≠ .mount ∧ c.pc ≠ .query ∧ c.pc ≠ .guard) :
    ∃ evs, (exec L n c).trace = c.trace ++ evs ∧ ∀ e ∈ evs, ¬ Event.isCheck e := by
  refine (exec_emits L (fun pc => pc ≠ .mount ∧ pc ≠ .query ∧ pc ≠ .guard)
    (fun e => ¬ Event.isCheck e) ?_ n c hc).2
  apply step_cases L (fun (c c' : Cfg σ) =>
    (c.pc ≠ .mount ∧ c.pc ≠ .query ∧ c.pc ≠ .guard) →
    (c'.pc ≠ .mount ∧ c'.pc ≠ .query ∧ c'.pc ≠ .guard) ∧
      ∃ evs, c'.trace = c.trace ++ evs ∧ ∀ e ∈ evs, ¬ Event.isCheck e)
  all_goals
    intros
    rename_i hS
    first
      | (exfalso; simp_all; done)
      | (refine ⟨?_, [], ?_, ?_⟩ <;> simp_all <;> done)
      | (refine ⟨?_, _, rfl, ?_⟩ <;> simp_all [Event.isCheck])
/-- A run whose first report has `used ≤ total` never makes a consistency
check. -/
theorem no_check_if_consistent {σ : Type} (L : Lib σ) (w : σ) (t u : Nat)
    (h2 : (app_main L w 2).trace = [Event.register L.ESP_OK, Event.info L.ESP_OK t u])
    (hle : u ≤ t) (n : Nat) :
    ∀ e ∈ (app_main L w n).trace, ¬ Event.isCheck e := by
  obtain ⟨hpc, ht, hu, -, -⟩ := run_two L w t u h2
  have e3 : app_main L w 3 = step L (app_main L w 2) := app_main_succ L w 2
  intro e he
  obtain ⟨-, e'⟩ | ⟨hlt, -⟩ := step_at_guard L _ hpc
  swap
  · omega
  have htr3 : (app_main L w 3).trace =
      [Event.register L.ESP_OK, Event.info L.ESP_OK t u] := by
    rw [e3, e']; simp [h2]
  have hlate : (app_main L w 3).pc ≠ .mount ∧ (app_main L w 3).pc ≠ .query ∧
      (app_main L w 3).pc ≠ .guard := by
    rw [e3, e']; simp
  obtain ⟨evs, hev⟩ := trace_mono L w n (n + 3) (by omega)
  obtain ⟨rest, h1, hrest⟩ := no_check_from_create L n _ hlate
  have hmem : e ∈ (app_main L w (n + 3)).trace := by
    rw [hev]; exact List.mem_append_left _ he
  have e5 : app_main L w (n + 3) = exec L n (app_main L w 3) := by
    rw [← app_main_add]; congr 1; omega
  rw [e5, h1, htr3] at hmem
  simp only [List.mem_append, List.mem_cons, List.mem_singleton, List.not_mem_nil,
    or_false] at hmem
  rcases hmem with (rfl | rfl) | hmem
  · simp [Event.isCheck]
  · simp [Event.isCheck]
  · exact hrest e hmem

/-! ## The consistency guard -/

/-- C3: in a run whose mount and first space query succeeded with the report
`(t, u)`: if `u > t` the third call is the consistency check, no other check
is ever made, and every file operation of the run comes after it; if the
check returned an error the run has returned with these three calls only; if
it succeeded the run is at the open-or-create step and its next call is the
`stat`.  If `u ≤ t` the run never makes a consistency check. -/
theorem consistency_guard {σ : Type} (L : Lib σ) (w : σ) (t u : Nat)
    (h2 : (app_main L w 2).trace = [Event.register L.ESP_OK, Event.info L.ESP_OK t u]) :
    (t < u → ∃ r,
      (∀ n, 3 ≤ n → ∃ rest,
        (app_main L w n).trace =
          [Event.register L.ESP_OK, Event.info L.ESP_OK t u, Event.check r] ++ rest ∧
        ∀ e ∈ rest, ¬ Event.isCheck e) ∧
      (∀ n i e, (app_main L w n).trace[i]? = some e → Event.isFileOp e → 2 < i) ∧
      (r ≠ L.ESP_OK → ∀ n, 3 ≤ n → (app_main L w n).pc = .done ∧
        (app_main L w n).trace =
          [Event.register L.ESP_OK, Event.info L.ESP_OK t u, Event.check r]) ∧
      (r = L.ESP_OK → (app_main L w 3).pc = .create ∧
        ∀ n, 4 ≤ n → ∃ s rest, (app_main L w n).trace =
          [Event.register L.ESP_OK, Event.info L.ESP_OK t u, Event.check r,
            Event.stat filename s] ++ rest)) ∧
    (u ≤ t → ∀ n, ∀ e ∈ (app_main L w n).trace, ¬ Event.isCheck e) := by
  obtain ⟨hpc, ht, hu, -, -⟩ := run_two L w t u h2
  have e3 : app_main L w 3 = step L (app_main L w 2) := app_main_succ L w 2
  have hfrom : ∀ n, 3 ≤ n → app_main L w n = exec L (n - 3) (app_main L w 3) := by
    intro n hn
    rw [← app_main_add]; congr 1; omega
  constructor
  · intro hlt
    obtain ⟨hle, -⟩ | ⟨-, r, w3, e⟩ := step_at_guard L _ hpc
    · omega
    have htr3 : (app_main L w 3).trace =
        [Event.register L.ESP_OK, Event.info L.ESP_OK t u, Event.check r] := by
      rw [e3, e]; simp [h2]
    have hpc3 : (app_main L w 3).pc = if r = L.ESP_OK then .create else .done := by
      rw [e3, e]
    have hlate : (app_main L w 3).pc ≠ .mount ∧ (app_main L w 3).pc ≠ .query ∧
        (app_main L w 3).pc ≠ .guard := by
      rw [hpc3]; split_ifs <;> simp
    have hrest : ∀ n, 3 ≤ n → ∃ rest,
        (app_main L w n).trace =
          [Event.register L.ESP_OK, Event.info L.ESP_OK t u, Event.check r] ++ rest ∧
        ∀ e ∈ rest, ¬ Event.isCheck e := by
      intro n hn
      obtain ⟨evs, h1, h2⟩ := no_check_from_create L (n - 3) _ hlate
      exact ⟨evs, by rw [hfrom n hn, h1, htr3], h2⟩
    refine ⟨r, hrest, ?_, ?_, ?_⟩
    · intro n i e hi hf
      by_contra hlt2
      obtain ⟨evs, hev⟩ := trace_mono L w n (n + 3) (by omega)
      obtain ⟨rest, hr, -⟩ := hrest (n + 3) (by omega)
      have hi2 : (app_main L w (n + 3)).trace[i]? = some e := by
        rw [hev, List.getElem?_append_left (by
          by_contra hge
          rw [List.getElem?_eq_none (by omega)] at hi
          simp at hi)]
        exact hi
      rw [hr] at hi2
      have : i = 0 ∨ i = 1 ∨ i = 2 := by omega
      rcases this with rfl | rfl | rfl <;> simp at hi2 <;> subst hi2 <;>
        simp [Event.isFileOp] at hf
    · intro hr n hn
      have hd : (app_main L w 3).pc = .done := by rw [hpc3]; simp [hr]
      rw [hfrom n hn, exec_of_done L _ _ hd]
      exact ⟨hd, htr3⟩
    · intro hr
      have hc : (app_main L w 3).pc = .create := by rw [hpc3]; simp [hr]
      refine ⟨hc, ?_⟩
      intro n hn
      have e4 : app_main L w 4 = step L (app_main L w 3) := app_main_succ L w 3
      obtain ⟨s, hs⟩ : ∃ s, (app_main L w 4).trace =
          (app_main L w 3).trace ++ [Event.stat filename s] ∨
          ∃ h, (app_main L w 4).trace =
            (app_main L w 3).trace ++ [Event.stat filename s, Event.fopen filename "w" h,
              Event.fclose h] := by
        obtain ⟨s, ⟨-, w4, e⟩ | ⟨-, h, e', w4, e⟩⟩ := step_at_create L _ hc
        · exact ⟨s, Or.inl (by rw [e4, e])⟩
        · exact ⟨s, Or.inr ⟨h, by rw [e4, e]⟩⟩
      obtain ⟨evs, hev⟩ := trace_mono L w 4 n hn
      rcases hs with hs | ⟨h, hs⟩
      · exact ⟨s, evs, by rw [hev, hs, htr3]; simp⟩
      · exact ⟨s, [Event.fopen filename "w" h, Event.fclose h] ++ evs,
          by rw [hev, hs, htr3]; simp⟩
  · intro hle n
    exact no_check_if_consistent L w t u h2 hle n

/-- The three ways the first two steps of a run can go. -/
theorem run_two_cases {σ : Type} (L : Lib σ) (w : σ) :
    (∃ r, r ≠ L.ESP_OK ∧ (app_main L w 2).pc = .done ∧
      (app_main L w 2).trace = [Event.register r]) ∨
    (∃ r t u, r ≠ L.ESP_OK ∧ (app_main L w 2).pc = .done ∧
      (app_main L w 2).trace = [Event.register L.ESP_OK, Event.info r t u, Event.format]) ∨
    (∃ t u, (app_main L w 2).pc = .guard ∧ (app_main L w 2).total = t ∧
      (app_main L w 2).used = u ∧ t < SIZE_MOD ∧ u < SIZE_MOD ∧
      (app_main L w 2).trace = [Event.register L.ESP_OK, Event.info L.ESP_OK t u]) := by
  obtain ⟨r, w1, e1⟩ := run_one L w
  have e2 : app_main L w 2 = step L (app_main L w 1) := app_main_succ L w 1
  by_cases hr : r = L.ESP_OK
  · have hpc : (app_main L w 1).pc = .query := by rw [e1]; simp [hr]
    obtain ⟨r2, t2, u2, w2, ht, hu, ⟨hr2, e⟩ | ⟨hr2, e⟩⟩ := step_at_query L _ hpc
    · right; right
      refine ⟨t2, u2, ?_⟩
      rw [e2, e, e1]
      simp [ht, hu, hr, hr2]
    · right; left
      refine ⟨r2, t2, u2, hr2, ?_⟩
      rw [e2, e, e1]
      simp [hr]
  · left
    have hpc : (app_main L w 1).pc = .done := by rw [e1]; simp [hr]
    refine ⟨r, hr, ?_⟩
    rw [e2, step_of_done L _ hpc, e1]
    simp [hr]

/-- A run whose first three steps made a successful mount, a successful space
query and, if any, a successful consistency check is at the open-or-create
step, with the report in `total` and `used`. -/
theorem run_three {σ : Type} (L : Lib σ) (w : σ) (t u : Nat)
    (h3 : (app_main L w 3).trace = [Event.register L.ESP_OK, Event.info L.ESP_OK t u] ∨
      (app_main L w 3).trace =
        [Event.register L.ESP_OK, Event.info L.ESP_OK t u, Event.check L.ESP_OK]) :
    (app_main L w 3).pc = .create ∧ (app_main L w 3).total = t ∧
    (app_main L w 3).used = u ∧ t < SIZE_MOD ∧ u < SIZE_MOD ∧
    ((app_main L w 3).trace = [Event.register L.ESP_OK, Event.info L.ESP_OK t u] → u ≤ t) ∧
    ((app_main L w 3).trace =
      [Event.register L.ESP_OK, Event.info L.ESP_OK t u, Event.check L.ESP_OK] → t < u) := by
  have e3 : app_main L w 3 = step L (app_main L w 2) := app_main_succ L w 2
  rcases run_two_cases L w with ⟨r, hr, hd, htr⟩ | ⟨r, t2, u2, hr, hd, htr⟩ |
    ⟨t2, u2, hpc, ht, hu, hlt, hlu, htr⟩
  · rw [e3, step_of_done L _ hd, htr] at h3
    simp at h3
  · rw [e3, step_of_done L _ hd, htr] at h3
    simp at h3
  · obtain ⟨hle, e⟩ | ⟨hgt, r, w3, e⟩ := step_at_guard L _ hpc
    · rw [e3, e] at h3 ⊢
      simp [htr] at h3
      obtain ⟨rfl, rfl⟩ := h3
      simp [htr, ht, hu, hlt, hlu]
      omega
    · rw [e3, e] at h3 ⊢
      simp [htr] at h3
      obtain ⟨⟨rfl, rfl⟩, rfl⟩ := h3
      simp [htr, ht, hu, hlt, hlu]
      omega

/-- The report is 1000 bytes total, 2000 used: the third call is the check and
nothing after it is a check. -/
theorem consistency_guard_witness :
    (app_main (scripted corruptScript) (0, 0) 2).trace =
      [Event.register 0, Event.info 0 1000 2000] ∧
    ∃ r, ∀ n, 3 ≤ n → ∃ rest,
      (app_main (scripted corruptScript) (0, 0) n).trace =
        [Event.register 0, Event.info 0 1000 2000, Event.check r] ++ rest ∧
      ∀ e ∈ rest, ¬ Event.isCheck e :=
  ⟨by decide,
   ((consistency_guard (scripted corruptScript) (0, 0) 1000 2000 (by decide)).1
      (by decide)).imp fun _ h => h.1⟩

/-! ## Open-or-create -/

/-- From the test of the `while` on, the run makes no `stat` and no open for
write. -/
theorem no_create_from_loop {σ : Type} (L : Lib σ) (n : Nat) (c : Cfg σ)
    (hc : c.pc = .loop ∨ c.pc = .body ∨ c.pc = .spin ∨ c.pc = .done) :
    ∃ evs, (exec L n c).trace = c.trace ++ evs ∧
      ∀ e ∈ evs, ¬ Event.isStat e ∧ ¬ Event.isCreate e := by
  refine (exec_emits L (fun pc => pc = .loop ∨ pc = .body ∨ pc = .spin ∨ pc = .done)
    (fun e => ¬ Event.isStat e ∧ ¬ Event.isCreate e) ?_ n c hc).2
  apply step_cases L (fun (c c' : Cfg σ) =>
    (c.pc = .loop ∨ c.pc = .body ∨ c.pc = .spin ∨ c.pc = .done) →
    (c'.pc = .loop ∨ c'.pc = .body ∨ c'.pc = .spin ∨ c'.pc = .done) ∧
      ∃ evs, c'.trace = c.trace ++ evs ∧ ∀ e ∈ evs, ¬ Event.isStat e ∧ ¬ Event.isCreate e)
  all_goals
    intros
    rename_i hS
    first
      | (exfalso; simp_all; done)
      | (refine ⟨?_, [], ?_, ?_⟩ <;> simp_all <;> done)
      | (refine ⟨?_, _, rfl, ?_⟩ <;> simp_all [Event.isStat, Event.isCreate])

/-- The value of `ret` at the entry of a step has no effect on the step: two
configurations that differ in `ret` only step to configurations with the same
program point, world and trace and the same other locals. -/
theorem step_ignores_ret {σ : Type} (L : Lib σ) (c : Cfg σ) (x : esp_err_t) :
    ∃ y, step L { c with ret := x } = { step L c with ret := y } := by
  cases hpc : c.pc with
  | mount => exact ⟨(step L c).ret, by simp [step, hpc, stepMount]⟩
  | query => exact ⟨(step L c).ret, by simp [step, hpc, stepQuery, callInfo, callFormat]⟩
  | guard =>
    by_cases h : c.used > c.total
    · exact ⟨(step L c).ret, by simp [step, hpc, stepGuard, h]⟩
    · exact ⟨x, by simp [step, hpc, stepGuard, h]⟩
  | create => exact ⟨(step L c).ret, by simp [step, hpc, stepCreate]⟩
  | loop => exact ⟨x, by simp [step, hpc, stepLoop]; split_ifs <;> rfl⟩
  | body =>
    by_cases h : (L.fopen filename "r+" c.world).1 = NULL
    · exact ⟨x, by simp [step, hpc, stepBody, h]⟩
    · exact ⟨(step L c).ret, by simp [step, hpc, stepBody, h, callInfo, callFormat]⟩
  | spin => exact ⟨x, by simp [step, hpc, stepSpin]; split_ifs <;> rfl⟩
  | done => exact ⟨x, by simp [step, hpc]⟩

theorem exec_ignores_ret {σ : Type} (L : Lib σ) (n : Nat) (c : Cfg σ) (x : esp_err_t) :
    ∃ y, exec L n { c with ret := x } = { exec L n c with ret := y } := by
  induction n generalizing c x with
  | zero => exact ⟨x, rfl⟩
  | succ k ih =>
    obtain ⟨y, hy⟩ := step_ignores_ret L c x
    obtain ⟨z, hz⟩ := ih (step L c) y
    exact ⟨z, by simp only [exec]; rw [hy, hz]⟩

/-- C8: in a run whose mount and first space query succeeded and whose
consistency check, if any, succeeded, the fourth step makes one `stat` of the
file; if the file is present (`stat` answers 0) that is the only call of the
step; if it is absent the step then opens the file for write once and closes
the handle it got, whatever that handle is, `NULL` included.  In every case
the run is then at the test of the `while`, it never makes another `stat` or
open for write, and from there the value of `ret` (the failure flag) has no
effect on the program points, the calls or the other variables. -/
theorem open_or_create {σ : Type} (L : Lib σ) (w : σ) (t u : Nat)
    (h3 : (app_main L w 3).trace = [Event.register L.ESP_OK, Event.info L.ESP_OK t u] ∨
      (app_main L w 3).trace =
        [Event.register L.ESP_OK, Event.info L.ESP_OK t u, Event.check L.ESP_OK]) :
    (app_main L w 4).pc = .loop ∧
    (∃ s,
      (s = 0 ∧ (app_main L w 4).trace = (app_main L w 3).trace ++ [Event.stat filename s]) ∨
      (s ≠ 0 ∧ ∃ h, (app_main L w 4).f = h ∧ (app_main L w 4).trace =
        (app_main L w 3).trace ++
          [Event.stat filename s, Event.fopen filename "w" h, Event.fclose h])) ∧
    (∀ n, 4 ≤ n → ∃ rest, (app_main L w n).trace = (app_main L w 4).trace ++ rest ∧
      ∀ e ∈ rest, ¬ Event.isStat e ∧ ¬ Event.isCreate e) ∧
    (∀ n x, ∃ y, exec L n { app_main L w 4 with ret := x } =
      { exec L n (app_main L w 4) with ret := y }) := by
  obtain ⟨hpc, -⟩ := run_three L w t u h3
  have e4 : app_main L w 4 = step L (app_main L w 3) := app_main_succ L w 3
  have hpc4 : (app_main L w 4).pc = .loop := by
    obtain ⟨s, ⟨-, w4, e⟩ | ⟨-, h, e', w4, e⟩⟩ := step_at_create L _ hpc <;> rw [e4, e]
  refine ⟨hpc4, ?_, ?_, fun n x => exec_ignores_ret L n _ x⟩
  · obtain ⟨s, ⟨hs, w4, e⟩ | ⟨hs, h, e', w4, e⟩⟩ := step_at_create L _ hpc
    · exact ⟨s, Or.inl ⟨hs, by rw [e4, e]⟩⟩
    · exact ⟨s, Or.inr ⟨hs, h, by rw [e4, e], by rw [e4, e]⟩⟩
  · intro n hn
    obtain ⟨evs, h1, h2⟩ := no_create_from_loop L (n - 4) _ (Or.inl hpc4)
    have hn4 : app_main L w n = exec L (n - 4) (app_main L w 4) := by
      rw [← app_main_add]; congr 1; omega
    exact ⟨evs, by rw [hn4, h1], h2⟩

/-- The file is absent and `fopen` answers `NULL`: the fourth step is `stat`,
`fopen`, `fclose(NULL)`, and the run is at the test of the `while`. -/
theorem open_or_create_witness :
    (app_main (scripted corruptScript) (0, 0) 3).trace =
      [Event.register 0, Event.info 0 1000 2000, Event.check 0] ∧
    (app_main (scripted corruptScript) (0, 0) 4).pc = .loop ∧
    (app_main (scripted corruptScript) (0, 0) 4).trace =
      [Event.register 0, Event.info 0 1000 2000, Event.check 0, Event.stat filename (-1),
        Event.fopen filename "w" NULL, Event.fclose NULL] ∧
    ∀ n, 4 ≤ n → ∃ rest, (app_main (scripted corruptScript) (0, 0) n).trace =
        (app_main (scripted corruptScript) (0, 0) 4).trace ++ rest ∧
      ∀ e ∈ rest, ¬ Event.isStat e ∧ ¬ Event.isCreate e :=
  ⟨by decide,
   (open_or_create (scripted corruptScript) (0, 0) 1000 2000 (Or.inr (by decide))).1,
   by decide,
   (open_or_create (scripted corruptScript) (0, 0) 1000 2000 (Or.inr (by decide))).2.2.1⟩

/-! ## The value of `available_space` -/

/-- For a report with `used ≤ total`, `available_space` is the free space when
that is below `2 ^ 31`, and the free space minus `2 ^ 32` otherwise. -/
theorem available_of_le (t u : Nat) (ht : t < SIZE_MOD) (hle : u ≤ t) :
    to_int32 (size_sub t u) =
      if t - u < 2 ^ 31 then ((t - u : Nat) : Int) else ((t - u : Nat) : Int) - 2 ^ 32 := by
  have hM : SIZE_MOD = 4294967296 := by decide
  have h1 : size_sub t u = t - u := by
    unfold size_sub
    rw [Nat.mod_eq_of_lt ht, Nat.mod_eq_of_lt (by omega : u < SIZE_MOD)]
    have : t + SIZE_MOD - u = (t - u) + SIZE_MOD := by omega
    rw [this, Nat.add_mod_right, Nat.mod_eq_of_lt (by omega)]
  rw [h1]
  unfold to_int32
  rw [Nat.mod_eq_of_lt (by omega : t - u < SIZE_MOD), hM]
  norm_num

/-- For a report with `used > total`, off by at most `2 ^ 31`,
`available_space` is the negative number `total - used`. -/
theorem available_of_gt (t u : Nat) (hu : u < SIZE_MOD) (hlt : t < u)
    (hd : u - t ≤ 2 ^ 31) :
    to_int32 (size_sub t u) = (t : Int) - (u : Int) := by
  have hM : SIZE_MOD = 4294967296 := by decide
  have h1 : size_sub t u = t + SIZE_MOD - u := by
    unfold size_sub
    rw [Nat.mod_eq_of_lt (by omega : t < SIZE_MOD), Nat.mod_eq_of_lt hu,
      Nat.mod_eq_of_lt (by omega)]
  rw [h1]
  unfold to_int32
  rw [Nat.mod_eq_of_lt (by omega : t + SIZE_MOD - u < SIZE_MOD), hM]
  rw [hM] at hu
  norm_num at hd
  rw [if_neg (by omega)]
  omega
/-- After the open-or-create step the run is at the test of the `while`, with
`available_space` computed from the first report. -/
theorem run_four {σ : Type} (L : Lib σ) (w : σ) (t u : Nat)
    (h3 : (app_main L w 3).trace = [Event.register L.ESP_OK, Event.info L.ESP_OK t u] ∨
      (app_main L w 3).trace =
        [Event.register L.ESP_OK, Event.info L.ESP_OK t u, Event.check L.ESP_OK]) :
    (app_main L w 4).pc = .loop ∧ (app_main L w 4).total = t ∧ (app_main L w 4).used = u ∧
    (app_main L w 4).available_space = to_int32 (size_sub t u) := by
  obtain ⟨hpc, ht, hu, -⟩ := run_three L w t u h3
  have e4 : app_main L w 4 = step L (app_main L w 3) := app_main_succ L w 3
  obtain ⟨s, ⟨-, w4, e⟩ | ⟨-, h, e', w4, e⟩⟩ := step_at_create L _ hpc <;>
    rw [e4, e] <;> simp [ht, hu]

/-! ## Stale space after a repair -/

/-- C10: in a run whose mount and first space query succeeded with a report
`(t, u)` where `u > t` and `u - t ≤ 2 ^ 31`, and whose consistency check
succeeded, the space is not queried again: `available_space` is the negative
number `t - u`, and the run consists of the open-or-create step followed by
the unmount, after which it has returned; the loop body is never entered. -/
theorem stale_space_after_repair {σ : Type} (L : Lib σ) (w : σ) (t u : Nat)
    (h3 : (app_main L w 3).trace =
      [Event.register L.ESP_OK, Event.info L.ESP_OK t u, Event.check L.ESP_OK])
    (hgt : t < u) (hd : u - t ≤ 2 ^ 31) :
    (app_main L w 4).available_space = (t : Int) - (u : Int) ∧
    (app_main L w 4).available_space < 0 ∧
    (∃ s, (app_main L w 4).trace =
        [Event.register L.ESP_OK, Event.info L.ESP_OK t u, Event.check L.ESP_OK,
          Event.stat filename s] ∨
      ∃ h, (app_main L w 4).trace =
        [Event.register L.ESP_OK, Event.info L.ESP_OK t u, Event.check L.ESP_OK,
          Event.stat filename s, Event.fopen filename "w" h, Event.fclose h]) ∧
    ∀ n, 5 ≤ n → (app_main L w n).pc = .done ∧
      (app_main L w n).trace = (app_main L w 4).trace ++ [Event.unregister] := by
  obtain ⟨hpc3, -, -, -, hu, -⟩ := run_three L w t u (Or.inr h3)
  obtain ⟨hpc, -, -, hav⟩ := run_four L w t u (Or.inr h3)
  have hval : (app_main L w 4).available_space = (t : Int) - (u : Int) := by
    rw [hav, available_of_gt t u hu hgt hd]
  have e4 : app_main L w 4 = step L (app_main L w 3) := app_main_succ L w 3
  refine ⟨hval, by omega, ?_, ?_⟩
  · obtain ⟨s, ⟨-, w4, e⟩ | ⟨-, h, e', w4, e⟩⟩ := step_at_create L _ hpc3
    · exact ⟨s, Or.inl (by rw [e4, e]; simp [h3])⟩
    · exact ⟨s, Or.inr ⟨h, by rw [e4, e]; simp [h3]⟩⟩
  · intro n hn
    have e5 : app_main L w 5 = step L (app_main L w 4) := app_main_succ L w 4
    have hn5 : app_main L w n = exec L (n - 5) (app_main L w 5) := by
      rw [← app_main_add]; congr 1; omega
    obtain ⟨hbig, -⟩ | ⟨-, w5, e⟩ := step_at_loop L _ hpc
    · omega
    · have hd5 : (app_main L w 5).pc = .done := by rw [e5, e]
      rw [hn5, exec_of_done L _ _ hd5]
      exact ⟨hd5, by rw [e5, e]⟩

/-- The report is 1000 bytes total, 2000 used, and the check succeeds:
`available_space` is -1000 and the run is the open-or-create step followed by
the unmount. -/
theorem stale_space_after_repair_witness :
    (app_main (scripted corruptScript) (0, 0) 3).trace =
      [Event.register 0, Event.info 0 1000 2000, Event.check 0] ∧
    (1000 < 2000 ∧ 2000 - 1000 ≤ 2 ^ 31) ∧
    (app_main (scripted corruptScript) (0, 0) 4).available_space = -1000 ∧
    ∀ n, 5 ≤ n → (app_main (scripted corruptScript) (0, 0) n).pc = .done ∧
      (app_main (scripted corruptScript) (0, 0) n).trace =
        (app_main (scripted corruptScript) (0, 0) 4).trace ++ [Event.unregister] :=
  ⟨by decide, by norm_num,
   (stale_space_after_repair (scripted corruptScript) (0, 0) 1000 2000 (by decide)
      (by decide) (by norm_num)).1,
   (stale_space_after_repair (scripted corruptScript) (0, 0) 1000 2000 (by decide)
      (by decide) (by norm_num)).2.2.2⟩

/-! ## The loop guard -/

theorem lastReport_append (ok : esp_err_t) (tr evs : List Event) (t u : Nat)
    (h : LastReport ok tr t u) (hevs : ∀ e ∈ evs, ¬ Event.isInfo e) :
    LastReport ok (tr ++ evs) t u := by
  obtain ⟨pre, rest, htr, hrest⟩ := h
  refine ⟨pre, rest ++ evs, by rw [htr]; simp, ?_⟩
  intro e he
  rcases List.mem_append.1 he with h1 | h1
  · exact hrest e h1
  · exact hevs e h1

theorem lastReport_snoc (ok : esp_err_t) (tr : List Event) (t u : Nat) :
    LastReport ok (tr ++ [Event.info ok t u]) t u :=
  ⟨tr, [], rfl, by simp⟩

/-- From the consistency guard to the loop, `total` and `used` hold the last
report of the trace, which succeeded; inside the loop `available_space` is
the converted difference of the two. -/
theorem report_invariant {σ : Type} (L : Lib σ) (w : σ) (n : Nat) :
    ((app_main L w n).pc ≠ .mount ∧ (app_main L w n).pc ≠ .query ∧
        (app_main L w n).pc ≠ .done →
      (app_main L w n).total < SIZE_MOD ∧ (app_main L w n).used < SIZE_MOD ∧
      LastReport L.ESP_OK (app_main L w n).trace (app_main L w n).total
        (app_main L w n).used) ∧
    ((app_main L w n).pc = .loop ∨ (app_main L w n).pc = .body ∨
        (app_main L w n).pc = .spin →
      (app_main L w n).available_space =
        to_int32 (size_sub (app_main L w n).total (app_main L w n).used)) := by
  refine run_invariant L w (fun (c : Cfg σ) =>
    (c.pc ≠ .mount ∧ c.pc ≠ .query ∧ c.pc ≠ .done →
      c.total < SIZE_MOD ∧ c.used < SIZE_MOD ∧ LastReport L.ESP_OK c.trace c.total c.used) ∧
    (c.pc = .loop ∨ c.pc = .body ∨ c.pc = .spin →
      c.available_space = to_int32 (size_sub c.total c.used))) ?_ ?_ n
  · simp [start]
  · apply step_cases L (fun (c c' : Cfg σ) =>
      ((c.pc ≠ .mount ∧ c.pc ≠ .query ∧ c.pc ≠ .done →
        c.total < SIZE_MOD ∧ c.used < SIZE_MOD ∧
        LastReport L.ESP_OK c.trace c.total c.used) ∧
      (c.pc = .loop ∨ c.pc = .body ∨ c.pc = .spin →
        c.available_space = to_int32 (size_sub c.total c.used))) →
      ((c'.pc ≠ .mount ∧ c'.pc ≠ .query ∧ c'.pc ≠ .done →
        c'.total < SIZE_MOD ∧ c'.used < SIZE_MOD ∧
        LastReport L.ESP_OK c'.trace c'.total c'.used) ∧
      (c'.pc = .loop ∨ c'.pc = .body ∨ c'.pc = .spin →
        c'.available_space = to_int32 (size_sub c'.total c'.used))))
    case query_ok =>
      intro c t u w hpc ht hu _
      exact ⟨fun _ => ⟨ht, hu, lastReport_snoc _ _ _ _⟩, by simp⟩
    case body_ok =>
      intro c h t u w hpc hn ht hu _
      refine ⟨fun _ => ⟨ht, hu, ?_⟩, fun _ => rfl⟩
      exact ⟨c.trace ++ [Event.fopen filename "r+" h, Event.fseek h 0 Whence.SEEK_END,
        Event.fprintf h log_line, Event.fclose h], [], by simp, by simp⟩
    case finished => intro c _ hc; exact hc
    case spin_stay => intro c _ _ hc; exact hc
    all_goals
      intros
      rename_i hJ
      first
        | (refine ⟨fun h => ?_, fun h => ?_⟩ <;> simp_all <;> done)
        | (refine ⟨fun _ => ⟨?_, ?_, lastReport_append _ _ _ _ _ ?_ ?_⟩, fun h => ?_⟩ <;>
            simp_all [Event.isInfo])
/-- C4 (amended): whenever the run is at the test of the `while`, `total` and
`used` hold the last, successful, space report; if that report has
`used ≤ total` and its free space `total - used` is below `2 ^ 31`, the run
enters the loop body exactly when the free space exceeds 1000 bytes; when it
does, its next call is the open for update of the file; when it does not, its
next call is the unmount and the run has returned. -/
theorem loop_guard {σ : Type} (L : Lib σ) (w : σ) (n : Nat)
    (hpc : (app_main L w n).pc = .loop)
    (hle : (app_main L w n).used ≤ (app_main L w n).total)
    (hsmall : (app_main L w n).total - (app_main L w n).used < 2 ^ 31) :
    LastReport L.ESP_OK (app_main L w n).trace (app_main L w n).total (app_main L w n).used ∧
    ((app_main L w (n + 1)).pc = .body ↔
      1000 < (app_main L w n).total - (app_main L w n).used) ∧
    (1000 < (app_main L w n).total - (app_main L w n).used →
      ∃ h rest, (app_main L w (n + 2)).trace =
        (app_main L w n).trace ++ Event.fopen filename "r+" h :: rest) ∧
    ((app_main L w n).total - (app_main L w n).used ≤ 1000 →
      (app_main L w (n + 1)).pc = .done ∧
      (app_main L w (n + 1)).trace = (app_main L w n).trace ++ [Event.unregister]) := by
  obtain ⟨h1, h2⟩ := report_invariant L w n
  obtain ⟨ht, hu, hlast⟩ := h1 (by simp [hpc])
  have hav := h2 (Or.inl hpc)
  rw [available_of_le _ _ ht hle, if_pos hsmall] at hav
  have e1 : app_main L w (n + 1) = step L (app_main L w n) := app_main_succ L w n
  have e2 : app_main L w (n + 2) = step L (app_main L w (n + 1)) := app_main_succ L w (n + 1)
  obtain ⟨hbig, e⟩ | ⟨hlow, w1, e⟩ := step_at_loop L _ hpc
  · have hb : (app_main L w (n + 1)).pc = .body := by rw [e1, e]
    have htr : (app_main L w (n + 1)).trace = (app_main L w n).trace := by rw [e1, e]
    refine ⟨hlast, ⟨fun _ => by omega, fun _ => hb⟩, fun _ => ?_, fun h => by omega⟩
    obtain ⟨w2, e'⟩ | ⟨h, r, t, u, w2, -, -, -, ⟨-, e'⟩ | ⟨-, e'⟩⟩ := step_at_body L _ hb
    · exact ⟨NULL, [], by rw [e2, e', htr]⟩
    · exact ⟨h, _, by rw [e2, e', htr]⟩
    · exact ⟨h, _, by rw [e2, e', htr]⟩
  · have hd : (app_main L w (n + 1)).pc = .done := by rw [e1, e]
    refine ⟨hlast, ⟨fun h => ?_, fun h => by omega⟩, fun h => by omega,
      fun _ => ⟨hd, by rw [e1, e]⟩⟩
    rw [hd] at h
    cases h

/-- The first report is 3000 bytes total, none used: the run enters the loop
body and opens the file for update. -/
theorem loop_guard_witness :
    (app_main (scripted fillScript) (0, 0) 4).pc = .loop ∧
    (app_main (scripted fillScript) (0, 0) 4).total = 3000 ∧
    (app_main (scripted fillScript) (0, 0) 4).used = 0 ∧
    ((app_main (scripted fillScript) (0, 0) (4 + 1)).pc = .body ↔
      1000 < (app_main (scripted fillScript) (0, 0) 4).total -
        (app_main (scripted fillScript) (0, 0) 4).used) :=
  ⟨by decide, by decide, by decide,
   (loop_guard (scripted fillScript) (0, 0) 4 (by decide) (by decide) (by decide)).2.1⟩

/-- C4 as stated fails: with a successful report of 4294967295 bytes total and
none used (`used ≤ total`, free space above 1000) the run at the test of the
`while` does not enter the loop body; `available_space` is -1 and the next
call is the unmount. -/
theorem loop_guard_counterexample :
    (app_main (scripted hugeScript) (0, 0) 4).pc = .loop ∧
    (app_main (scripted hugeScript) (0, 0) 4).trace =
      [Event.register 0, Event.info 0 4294967295 0, Event.stat filename 0] ∧
    (app_main (scripted hugeScript) (0, 0) 4).total = 4294967295 ∧
    (app_main (scripted hugeScript) (0, 0) 4).used = 0 ∧
    (app_main (scripted hugeScript) (0, 0) 4).available_space = -1 ∧
    (app_main (scripted hugeScript) (0, 0) 4).used ≤
      (app_main (scripted hugeScript) (0, 0) 4).total ∧
    1000 < (app_main (scripted hugeScript) (0, 0) 4).total -
      (app_main (scripted hugeScript) (0, 0) 4).used ∧
    (app_main (scripted hugeScript) (0, 0) 5).pc ≠ .body ∧
    (app_main (scripted hugeScript) (0, 0) 5).pc = .done ∧
    (app_main (scripted hugeScript) (0, 0) 5).trace =
      [Event.register 0, Event.info 0 4294967295 0, Event.stat filename 0,
        Event.unregister] := by
  decide

/-! ## Release of the resources -/

theorem openHandles_append (tr evs : List Event) :
    openHandles (tr ++ evs) = evs.foldl track (openHandles tr) := by
  simp [openHandles, List.foldl_append]

/-- Between two steps no file handle is open. -/
theorem no_handle_between_steps {σ : Type} (L : Lib σ) (w : σ) (n : Nat) :
    openHandles (app_main L w n).trace = [] := by
  refine run_invariant L w (fun (c : Cfg σ) => openHandles c.trace = []) rfl ?_ n
  apply step_cases L (fun (c c' : Cfg σ) => openHandles c.trace = [] → openHandles c'.trace = [])
  case create_new =>
    intro c r h e w _ _ hc
    by_cases hn : h = NULL <;> simp [openHandles_append, hc, track, hn]
  case body_ok =>
    intro c h t u w _ hn _ _ hc
    simp [openHandles_append, hc, track, hn]
  case body_err =>
    intro c h r t u w _ hn _ hc
    simp [openHandles_append, hc, track, hn]
  all_goals
    intros
    simp_all [openHandles_append, track]
/-- The unmount is made at most once, as the last call of a run that returns;
a run that has returned without it has met a failed mount, space query or
consistency check. -/
theorem unmount_last {σ : Type} (L : Lib σ) (w : σ) (n : Nat) :
    ((app_main L w n).pc ≠ .done → Event.unregister ∉ (app_main L w n).trace) ∧
    ((app_main L w n).pc = .done →
      (∃ e ∈ (app_main L w n).trace, Event.failed L.ESP_OK e) ∨
      ∃ pre, (app_main L w n).trace = pre ++ [Event.unregister] ∧
        Event.unregister ∉ pre) := by
  refine run_invariant L w (fun (c : Cfg σ) =>
    (c.pc ≠ .done → Event.unregister ∉ c.trace) ∧
    (c.pc = .done → (∃ e ∈ c.trace, Event.failed L.ESP_OK e) ∨
      ∃ pre, c.trace = pre ++ [Event.unregister] ∧ Event.unregister ∉ pre)) ?_ ?_ n
  · simp [start]
  · apply step_cases L (fun (c c' : Cfg σ) =>
      ((c.pc ≠ .done → Event.unregister ∉ c.trace) ∧
        (c.pc = .done → (∃ e ∈ c.trace, Event.failed L.ESP_OK e) ∨
          ∃ pre, c.trace = pre ++ [Event.unregister] ∧ Event.unregister ∉ pre)) →
      ((c'.pc ≠ .done → Event.unregister ∉ c'.trace) ∧
        (c'.pc = .done → (∃ e ∈ c'.trace, Event.failed L.ESP_OK e) ∨
          ∃ pre, c'.trace = pre ++ [Event.unregister] ∧ Event.unregister ∉ pre)))
    case mount_err =>
      intro c r w _ hr _
      exact ⟨by simp, fun _ => Or.inl ⟨Event.register r, by simp, hr⟩⟩
    case query_err =>
      intro c r t u w _ hr _
      exact ⟨by simp, fun _ => Or.inl ⟨Event.info r t u, by simp, hr⟩⟩
    case guard_err =>
      intro c r w _ _ hr _
      exact ⟨by simp, fun _ => Or.inl ⟨Event.check r, by simp, hr⟩⟩
    case body_err =>
      intro c h r t u w _ _ hr _
      exact ⟨by simp, fun _ => Or.inl ⟨Event.info r t u, by simp, hr⟩⟩
    case loop_exit =>
      intro c w hpc _ hK
      exact ⟨by simp, fun _ => Or.inr ⟨c.trace, rfl, hK.1 (by simp [hpc])⟩⟩
    case finished => intro c _ hc; exact hc
    case spin_stay => intro c _ _ hc; exact hc
    all_goals
      intros
      simp_all

/-- C6 (amended): when the run has returned and no mount, space query or
consistency check of the run has failed, the unmount has been called, exactly
once and as the last call, and no file handle is open. -/
theorem resources_released {σ : Type} (L : Lib σ) (w : σ) (n : Nat)
    (hd : (app_main L w n).pc = .done)
    (hok : ∀ e ∈ (app_main L w n).trace, ¬ Event.failed L.ESP_OK e) :
    (∃ pre, (app_main L w n).trace = pre ++ [Event.unregister] ∧ Event.unregister ∉ pre) ∧
    openHandles (app_main L w n).trace = [] := by
  refine ⟨?_, no_handle_between_steps L w n⟩
  rcases (unmount_last L w n).2 hd with ⟨e, he, hf⟩ | h
  · exact absurd hf (hok e he)
  · exact h

/-- The run that fills the file returns after eleven steps, unmounted. -/
theorem resources_released_witness :
    (app_main (scripted fillScript) (0, 0) 11).pc = .done ∧
    (∀ e ∈ (app_main (scripted fillScript) (0, 0) 11).trace, ¬ Event.failed 0 e) ∧
    (∃ pre, (app_main (scripted fillScript) (0, 0) 11).trace = pre ++ [Event.unregister] ∧
      Event.unregister ∉ pre) ∧
    openHandles (app_main (scripted fillScript) (0, 0) 11).trace = [] :=
  ⟨by decide, by decide,
   resources_released (scripted fillScript) (0, 0) 11 (by decide) (by decide)⟩

/-- C6 as stated fails: the mount and the space query succeed, the report has
`used > total` and the consistency check fails; the run returns after the
check and the unmount is never called. -/
theorem resources_released_counterexample :
    (app_main (scripted checkFailScript) (0, 0) 3).pc = .done ∧
    (app_main (scripted checkFailScript) (0, 0) 3).trace =
      [Event.register 0, Event.info 0 1000 2000, Event.check (-1)] ∧
    (scripted checkFailScript).ESP_OK = 0 ∧
    Event.unregister ∉ (app_main (scripted checkFailScript) (0, 0) 3).trace ∧
    ∀ m, app_main (scripted checkFailScript) (0, 0) (3 + m) =
      app_main (scripted checkFailScript) (0, 0) 3 :=
  ⟨by decide, by decide, rfl, by decide,
   fun m => by rw [app_main_add]; exact exec_of_done _ m _ (by decide)⟩

/-! ## The append iteration -/

theorem getElem?_append_of_some {α : Type} (l₁ l₂ : List α) (i : Nat) (a : α)
    (h : l₁[i]? = some a) : (l₁ ++ l₂)[i]? = some a := by
  have hlt : i < l₁.length := by
    by_contra hge
    rw [List.getElem?_eq_none (by omega)] at h
    cases h
  rw [List.getElem?_append_left hlt]
  exact h

theorem iterations_append_quiet (tr evs : List Event) (h : Iterations tr)
    (hevs : ∀ e ∈ evs, ∀ f, e = Event.fopen filename "r+" f → f = NULL) :
    Iterations (tr ++ evs) := by
  intro i f hi hf
  by_cases hlt : i < tr.length
  · rw [List.getElem?_append_left hlt] at hi
    obtain ⟨h0, h1, h2, h3, r, t, u, h4⟩ := h i f hi hf
    refine ⟨?_, getElem?_append_of_some _ _ _ _ h1, getElem?_append_of_some _ _ _ _ h2,
      getElem?_append_of_some _ _ _ _ h3, r, t, u, getElem?_append_of_some _ _ _ _ h4⟩
    rw [List.take_append_of_le_length (by omega)]
    exact h0
  · rw [List.getElem?_append_right (by omega)] at hi
    exact absurd (hevs _ (List.getElem?_mem hi) f rfl) hf

theorem iterations_append_pass (tr rest : List Event) (f : Nat) (r : esp_err_t)
    (t u : Nat) (h : Iterations tr) (hopen : openHandles tr = [])
    (hrest : ∀ e ∈ rest, ∀ g, e ≠ Event.fopen filename "r+" g) :
    Iterations (tr ++ (Event.fopen filename "r+" f :: Event.fseek f 0 Whence.SEEK_END ::
      Event.fprintf f log_line :: Event.fclose f :: Event.info r t u :: rest)) := by
  intro i g hi hg
  by_cases hlt : i < tr.length
  · rw [List.getElem?_append_left hlt] at hi
    obtain ⟨h0, h1, h2, h3, r', t', u', h4⟩ := h i g hi hg
    refine ⟨?_, getElem?_append_of_some _ _ _ _ h1, getElem?_append_of_some _ _ _ _ h2,
      getElem?_append_of_some _ _ _ _ h3, r', t', u', getElem?_append_of_some _ _ _ _ h4⟩
    rw [List.take_append_of_le_length (by omega)]
    exact h0
  · rw [List.getElem?_append_right (by omega)] at hi
    obtain ⟨j, hj⟩ : ∃ j, i = tr.length + j := ⟨i - tr.length, by omega⟩
    subst hj
    simp only [Nat.add_sub_cancel_left] at hi
    rcases j with _ | _ | _ | _ | _ | j
    · simp at hi
      subst hi
      refine ⟨by simp [hopen], ?_, ?_, ?_, r, t, u, ?_⟩ <;>
        rw [List.getElem?_append_right (by omega)] <;> simp
    · simp at hi
    · simp at hi
    · simp at hi
    · simp at hi
    · simp at hi
      exact absurd rfl (hrest _ (List.getElem?_mem hi) g)
theorem iterations_run {σ : Type} (L : Lib σ) (w : σ) (n : Nat) :
    Iterations (app_main L w n).trace := by
  induction n with
  | zero => intro i h hi; simp [app_main, exec, start] at hi
  | succ m ih =>
    rw [app_main_succ]
    have hno := no_handle_between_steps L w m
    revert ih hno
    generalize app_main L w m = c
    revert c
    apply step_cases L (fun (c c' : Cfg σ) =>
      Iterations c.trace → openHandles c.trace = [] → Iterations c'.trace)
    case body_ok =>
      intro c h t u w _ hn _ _ h1 h2
      exact iterations_append_pass _ [] h _ t u h1 h2 (by simp)
    case body_err =>
      intro c h r t u w _ hn _ h1 h2
      exact iterations_append_pass _ [Event.format] h r t u h1 h2 (by simp)
    case finished => intro c _ h1 _; exact h1
    case spin_stay => intro c _ _ h1 _; exact h1
    case guard_skip => intro c _ _ h1 _; exact h1
    case loop_enter => intro c _ _ h1 _; exact h1
    case spin_leave => intro c _ _ h1 _; exact h1
    all_goals
      intros
      rename_i h1 h2
      refine iterations_append_quiet _ _ h1 ?_
      simp [filename]

/-- At every point of the trace at most one file handle is open. -/
theorem one_handle_at_most {σ : Type} (L : Lib σ) (w : σ) (n : Nat) :
    ∀ k, (openHandles ((app_main L w n).trace.take k)).length ≤ 1 := by
  have key : ∀ (tr evs : List Event),
      (∀ k, (openHandles (tr.take k)).length ≤ 1) → openHandles tr = [] →
      (∀ j, ((evs.take j).foldl track []).length ≤ 1) →
      ∀ k, (openHandles ((tr ++ evs).take k)).length ≤ 1 := by
    intro tr evs h1 h2 h3 k
    rw [List.take_append_eq_append_take, openHandles_append]
    by_cases hk : k ≤ tr.length
    · have : k - tr.length = 0 := by omega
      rw [this]
      simpa using h1 k
    · rw [List.take_of_length_le (by omega), h2]
      exact h3 _
  induction n with
  | zero => intro k; simp [app_main, exec, start, openHandles]
  | succ m ih =>
    rw [app_main_succ]
    have hno := no_handle_between_steps L w m
    revert ih hno
    generalize app_main L w m = c
    revert c
    apply step_cases L (fun (c c' : Cfg σ) =>
      (∀ k, (openHandles (c.trace.take k)).length ≤ 1) → openHandles c.trace = [] →
        ∀ k, (openHandles (c'.trace.take k)).length ≤ 1)
    case finished => intro c _ h1 _; exact h1
    case spin_stay => intro c _ _ h1 _; exact h1
    case guard_skip => intro c _ _ h1 _; exact h1
    case loop_enter => intro c _ _ h1 _; exact h1
    case spin_leave => intro c _ _ h1 _; exact h1
    all_goals
      intros
      rename_i h1 h2 k
      refine key _ _ h1 h2 ?_ k
      intro j
      rcases j with _ | _ | _ | _ | _ | _ | j <;> simp [track] <;>
        split_ifs <;> simp
/-! ## Termination -/

theorem decreasing_append_two (l : List Nat) (a b : Nat) (h : Decreasing (l ++ [a, b])) :
    b < a := by
  induction l with
  | nil => exact h.1
  | cons x xs ih =>
    cases xs with
    | nil => exact ih h.2
    | cons y ys => exact ih h.2

theorem frees_append (l₁ l₂ : List Event) : frees (l₁ ++ l₂) = frees l₁ ++ frees l₂ := by
  simp [frees, List.filterMap_append]

theorem frees_of_no_info (l : List Event) (h : ∀ e ∈ l, ¬ Event.isInfo e) : frees l = [] := by
  induction l with
  | nil => rfl
  | cons x xs ih =>
    have hx := h x (List.mem_cons_self _ _)
    have hxs := ih fun e he => h e (List.mem_cons_of_mem _ he)
    cases x <;> simp_all [frees, Event.isInfo]

theorem frees_of_lastReport (ok : esp_err_t) (tr : List Event) (t u : Nat)
    (h : LastReport ok tr t u) : ∃ l, frees tr = l ++ [t - u] := by
  obtain ⟨pre, rest, htr, hrest⟩ := h
  refine ⟨frees pre, ?_⟩
  rw [htr, frees_append]
  have : Event.info ok t u :: rest = [Event.info ok t u] ++ rest := rfl
  rw [this, frees_append, frees_of_no_info rest hrest]
  simp [frees]

theorem mem_of_lastReport (ok : esp_err_t) (tr : List Event) (t u : Nat)
    (h : LastReport ok tr t u) : Event.info ok t u ∈ tr := by
  obtain ⟨pre, rest, htr, -⟩ := h
  rw [htr]; simp

/-- In a cooperative environment a run that is at the test of the `while`
returns after finitely many steps, and then the last report shows at most 1000
bytes free, or at least `2 ^ 31`. -/
theorem loop_terminates {σ : Type} (L : Lib σ) (w : σ)
    (H : ∀ n, Cooperative L.ESP_OK (app_main L w n).trace) (m : Nat) :
    ∀ k, (app_main L w k).pc = .loop →
      (app_main L w k).total - (app_main L w k).used = m →
      ∃ j, (app_main L w (k + j)).pc = .done ∧
        ∃ t u, LastReport L.ESP_OK (app_main L w (k + j)).trace t u ∧
          (t - u ≤ 1000 ∨ 2 ^ 31 ≤ t - u) := by
  induction m using Nat.strong_induction_on with
  | _ m ih =>
    intro k hpc hm
    obtain ⟨h1, h2⟩ := report_invariant L w k
    obtain ⟨ht, hu, hlast⟩ := h1 (by simp [hpc])
    have hav := h2 (Or.inl hpc)
    have hle : (app_main L w k).used ≤ (app_main L w k).total :=
      ((H k).1 _ (mem_of_lastReport _ _ _ _ hlast)).2
    rw [available_of_le _ _ ht hle] at hav
    have e1 : app_main L w (k + 1) = step L (app_main L w k) := app_main_succ L w k
    have e2 : app_main L w (k + 2) = step L (app_main L w (k + 1)) :=
      app_main_succ L w (k + 1)
    obtain ⟨hbig, e⟩ | ⟨hlow, w1, e⟩ := step_at_loop L _ hpc
    · have hb : (app_main L w (k + 1)).pc = .body := by rw [e1, e]
      have htr : (app_main L w (k + 1)).trace = (app_main L w k).trace := by rw [e1, e]
      have hH := H (k + 2)
      obtain ⟨w2, e'⟩ | ⟨h, r, t, u, w2, -, -, -, ⟨hr, e'⟩ | ⟨hr, e'⟩⟩ := step_at_body L _ hb
      · rw [e2, e'] at hH
        exact absurd rfl (hH.1 (Event.fopen filename "r+" NULL) (by simp))
      · rw [e2, e'] at hH
        obtain ⟨l, hl⟩ := frees_of_lastReport _ _ _ _ hlast
        have hdec : t - u < m := by
          have := hH.2
          simp only [frees_append, htr, hl] at this
          simp [frees] at this
          rw [hm] at this
          exact decreasing_append_two l _ _ (by simpa using this)
        have hpc2 : (app_main L w (k + 2)).pc = .loop := by rw [e2, e']
        have hm2 : (app_main L w (k + 2)).total - (app_main L w (k + 2)).used = t - u := by
          rw [e2, e']
        obtain ⟨j, hj⟩ := ih (t - u) hdec (k + 2) hpc2 hm2
        exact ⟨2 + j, by rw [← Nat.add_assoc]; exact hj⟩
      · rw [e2, e'] at hH
        exact absurd (hH.1 (Event.info r t u) (by simp)).1 hr
    · refine ⟨1, by rw [e1, e], (app_main L w k).total, (app_main L w k).used, ?_, ?_⟩
      · rw [e1, e]
        exact lastReport_append _ _ _ _ _ hlast (by simp [Event.isInfo])
      · split_ifs at hav with hs
        · left; rw [hav] at hlow; omega
        · right; omega

/-- A property of the configurations of a run that has returned after `N`
steps holds at every observation if it holds at the first `N`. -/
theorem forall_of_done {σ : Type} (L : Lib σ) (w : σ) (N : Nat) (P : Cfg σ → Prop)
    (hd : (app_main L w N).pc = .done) (h : ∀ n, n ≤ N → P (app_main L w n)) :
    ∀ n, P (app_main L w n) := by
  intro n
  by_cases hn : n ≤ N
  · exact h n hn
  · have : app_main L w n = app_main L w N := by
      have e : n = N + (n - N) := by omega
      rw [e, app_main_add]
      exact exec_of_done L _ _ hd
    rw [this]
    exact h N (le_refl _)

/-- C5 (amended): in a cooperative environment (the mount succeeds, every
space query succeeds with `used ≤ total`, every open succeeds, every re-query
reports strictly less free space than the report before) the run returns after
finitely many steps and stays as it is; the unmount is then its last call and
is called exactly once, no file handle is open, and the last reported free
space is at most 1000 bytes, or at least `2 ^ 31` bytes. -/
theorem terminates_unmounted {σ : Type} (L : Lib σ) (w : σ)
    (H : ∀ n, Cooperative L.ESP_OK (app_main L w n).trace) :
    ∃ N, (app_main L w N).pc = .done ∧
      (∀ m, app_main L w (N + m) = app_main L w N) ∧
      (∃ pre, (app_main L w N).trace = pre ++ [Event.unregister] ∧
        Event.unregister ∉ pre) ∧
      openHandles (app_main L w N).trace = [] ∧
      ∃ t u, LastReport L.ESP_OK (app_main L w N).trace t u ∧
        (t - u ≤ 1000 ∨ 2 ^ 31 ≤ t - u) := by
  have hH2 := H 2
  rcases run_two_cases L w with ⟨r, hr, -, htr⟩ | ⟨r, t, u, hr, -, htr⟩ |
    ⟨t, u, hpc, ht, hu, -, -, htr⟩
  · rw [htr] at hH2
    exact absurd (hH2.1 (Event.register r) (by simp)) hr
  · rw [htr] at hH2
    exact absurd (hH2.1 (Event.info r t u) (by simp)).1 hr
  · have hle : u ≤ t := by
      rw [htr] at hH2
      exact (hH2.1 (Event.info L.ESP_OK t u) (by simp)).2
    have e3 : app_main L w 3 = step L (app_main L w 2) := app_main_succ L w 2
    have htr3 : (app_main L w 3).trace =
        [Event.register L.ESP_OK, Event.info L.ESP_OK t u] := by
      obtain ⟨-, e⟩ | ⟨hlt, -⟩ := step_at_guard L _ hpc
      · rw [e3, e]; exact htr
      · omega
    obtain ⟨hpc4, ht4, hu4, -⟩ := run_four L w t u (Or.inl htr3)
    obtain ⟨j, hd, hlast⟩ := loop_terminates L w H _ 4 hpc4 rfl
    refine ⟨4 + j, hd, ?_, ?_, no_handle_between_steps L w _, hlast⟩
    · intro m
      rw [app_main_add]
      exact exec_of_done L m _ hd
    · rcases (unmount_last L w (4 + j)).2 hd with ⟨e, he, hf⟩ | h
      · exfalso
        have hw := (H (4 + j)).1 e he
        have hc := no_check_if_consistent L w t u htr hle (4 + j) e he
        cases e <;> simp_all [Event.failed, Event.answeredWell, Event.isCheck]
      · exact h

/-- The run that fills the file: 3000 bytes in total, 900 more used after each
append.  It returns after eleven steps. -/
theorem terminates_unmounted_witness :
    (∀ n, Cooperative 0 (app_main (scripted fillScript) (0, 0) n).trace) ∧
    (app_main (scripted fillScript) (0, 0) 11).pc = .done ∧
    (app_main (scripted fillScript) (0, 0) 11).total -
      (app_main (scripted fillScript) (0, 0) 11).used = 300 ∧
    ∃ N, (app_main (scripted fillScript) (0, 0) N).pc = .done ∧
      (∀ m, app_main (scripted fillScript) (0, 0) (N + m) =
        app_main (scripted fillScript) (0, 0) N) ∧
      (∃ pre, (app_main (scripted fillScript) (0, 0) N).trace = pre ++ [Event.unregister] ∧
        Event.unregister ∉ pre) ∧
      openHandles (app_main (scripted fillScript) (0, 0) N).trace = [] ∧
      ∃ t u, LastReport 0 (app_main (scripted fillScript) (0, 0) N).trace t u ∧
        (t - u ≤ 1000 ∨ 2 ^ 31 ≤ t - u) :=
  ⟨forall_of_done (scripted fillScript) (0, 0) 11 (fun c => Cooperative 0 c.trace)
      (by decide) (by decide),
   by decide, by decide,
   terminates_unmounted (scripted fillScript) (0, 0)
     (forall_of_done (scripted fillScript) (0, 0) 11 (fun c => Cooperative 0 c.trace)
       (by decide) (by decide))⟩

/-- C5 as stated fails: the environment is cooperative (the mount and the only
space query succeed, with 4294967295 bytes total and none used, and no open is
made), the run returns after five steps with the unmount as its last call, and
the last reported free space is 4294967295 bytes, not at most 1000. -/
theorem terminates_unmounted_counterexample :
    (∀ n, Cooperative 0 (app_main (scripted hugeScript) (0, 0) n).trace) ∧
    (app_main (scripted hugeScript) (0, 0) 5).pc = .done ∧
    (app_main (scripted hugeScript) (0, 0) 5).trace =
      [Event.register 0, Event.info 0 4294967295 0, Event.stat filename 0,
        Event.unregister] ∧
    frees (app_main (scripted hugeScript) (0, 0) 5).trace = [4294967295] ∧
    ¬ (4294967295 - 0 ≤ 1000) ∧
    ∀ m, app_main (scripted hugeScript) (0, 0) (5 + m) =
      app_main (scripted hugeScript) (0, 0) 5 :=
  ⟨forall_of_done (scripted hugeScript) (0, 0) 5 (fun c => Cooperative 0 c.trace)
      (by decide) (by decide),
   by decide, by decide, by decide, by decide,
   fun m => by rw [app_main_add]; exact exec_of_done _ m _ (by decide)⟩

/-! ## The end of an iteration -/

/-- A space query of the run that returned an error is followed by a format,
which is the last call of the trace. -/
theorem failed_query_is_last {σ : Type} (L : Lib σ) (w : σ) (n k : Nat)
    (r : esp_err_t) (t u : Nat)
    (hk : (app_main L w n).trace[k]? = some (Event.info r t u)) (hr : r ≠ L.ESP_OK) :
    (app_main L w n).trace[k + 1]? = some Event.format ∧
    (app_main L w n).trace.length = k + 2 := by
  rcases quiet_or_formatted L w n with hq | ⟨-, pre, r', t', u', -, htr, hpre⟩
  · have := hq _ (List.getElem?_mem hk)
    simp [Event.quiet] at this
    exact absurd this hr
  · have hlen : k = pre.length := by
      rcases Nat.lt_trichotomy k pre.length with h | h | h
      · rw [htr, List.getElem?_append_left h] at hk
        have := hpre _ (List.getElem?_mem hk)
        simp [Event.quiet] at this
        exact absurd this hr
      · exact h
      · rw [htr, List.getElem?_append_right (by omega)] at hk
        obtain ⟨j, hj⟩ : ∃ j, k - pre.length = j + 1 := ⟨k - pre.length - 1, by omega⟩
        rw [hj] at hk
        cases j <;> simp at hk
    constructor
    · rw [htr, hlen, List.getElem?_append_right (by omega)]
      simp
    · rw [htr, hlen]; simp

/-- What one step appends to the trace, as far as the iterations are
concerned: a step that appends nothing keeps the run inside the loop; from
the test or the body of the `while` the first call appended is an open for
update or the unmount; a successful open for update is the first call
appended, and the step appends either five calls and goes back to the test of
the `while`, or six calls of which the fifth is a failed space query. -/
theorem step_shape {σ : Type} (L : Lib σ) :
    ∀ c : Cfg σ, ∃ evs, (step L c).trace = c.trace ++ evs ∧
      (evs = [] → (c.pc = .loop ∨ c.pc = .body) →
        ((step L c).pc = .loop ∨ (step L c).pc = .body)) ∧
      ((c.pc = .loop ∨ c.pc = .body) → ∀ e, evs[0]? = some e →
        (∃ g, e = Event.fopen filename "r+" g) ∨ e = Event.unregister) ∧
      (∀ j h, evs[j]? = some (Event.fopen filename "r+" h) → h ≠ NULL →
        j = 0 ∧ ((evs.length = 5 ∧ (step L c).pc = .loop) ∨
          (evs.length = 6 ∧ ∃ r t u, evs[4]? = some (Event.info r t u) ∧ r ≠ L.ESP_OK))) := by
  apply step_cases L (fun (c c' : Cfg σ) => ∃ evs, c'.trace = c.trace ++ evs ∧
      (evs = [] → (c.pc = .loop ∨ c.pc = .body) → (c'.pc = .loop ∨ c'.pc = .body)) ∧
      ((c.pc = .loop ∨ c.pc = .body) → ∀ e, evs[0]? = some e →
        (∃ g, e = Event.fopen filename "r+" g) ∨ e = Event.unregister) ∧
      (∀ j h, evs[j]? = some (Event.fopen filename "r+" h) → h ≠ NULL →
        j = 0 ∧ ((evs.length = 5 ∧ c'.pc = .loop) ∨
          (evs.length = 6 ∧ ∃ r t u, evs[4]? = some (Event.info r t u) ∧ r ≠ L.ESP_OK))))
  case body_ok =>
    intro c h t u w hpc hn ht hu
    refine ⟨_, rfl, by simp, by simp, ?_⟩
    intro j g hj hg
    rcases j with _ | _ | _ | _ | _ | j <;> simp at hj
    simp
  case body_err =>
    intro c h r t u w hpc hn hr
    refine ⟨_, rfl, by simp, by simp, ?_⟩
    intro j g hj hg
    rcases j with _ | _ | _ | _ | _ | _ | j <;> simp at hj
    simp [hr]
  case body_null =>
    intro c w hpc
    refine ⟨_, rfl, by simp, by simp, ?_⟩
    intro j g hj hg
    rcases j with _ | j <;> simp at hj
    exact absurd hj.symm hg
  case loop_exit =>
    intro c w hpc hlow
    refine ⟨_, rfl, by simp, by simp, ?_⟩
    intro j g hj hg
    rcases j with _ | j <;> simp at hj
  case loop_enter =>
    intro c hpc hbig
    exact ⟨[], by simp, by simp, by simp, by simp⟩
  case guard_skip =>
    intro c hpc hle
    exact ⟨[], by simp, by simp [hpc], by simp, by simp⟩
  case spin_stay =>
    intro c hpc hg
    exact ⟨[], by simp, by simp [hpc], by simp, by simp⟩
  case spin_leave =>
    intro c hpc hg
    exact ⟨[], by simp, by simp, by simp, by simp⟩
  case finished =>
    intro c hpc
    exact ⟨[], by simp, by simp [hpc], by simp, by simp⟩
  all_goals
    intros
    refine ⟨_, rfl, by simp, by simp_all, ?_⟩
    intro j g hj hg
    rcases j with _ | _ | _ | j <;> simp [filename] at hj
theorem lt_length_of_getElem? {α : Type} (l : List α) (i : Nat) (a : α)
    (h : l[i]? = some a) : i < l.length := by
  by_contra hge
  rw [List.getElem?_eq_none (by omega)] at h
  cases h

/-- When the trace ends with the five calls of an iteration the run is at the
test or in the body of the `while`; and the call that follows an iteration
whose space query succeeded is an open for update or the unmount. -/
theorem iteration_ends {σ : Type} (L : Lib σ) (w : σ) (n : Nat) :
    (∀ i h, (app_main L w n).trace[i]? = some (Event.fopen filename "r+" h) → h ≠ NULL →
      (app_main L w n).trace.length = i + 5 →
      ((app_main L w n).pc = .loop ∨ (app_main L w n).pc = .body)) ∧
    (∀ i h t u e, (app_main L w n).trace[i]? = some (Event.fopen filename "r+" h) →
      h ≠ NULL → (app_main L w n).trace[i + 4]? = some (Event.info L.ESP_OK t u) →
      (app_main L w n).trace[i + 5]? = some e →
      (∃ g, e = Event.fopen filename "r+" g) ∨ e = Event.unregister) := by
  induction n with
  | zero =>
    constructor
    · intro i h hi; simp [app_main, exec, start] at hi
    · intro i h t u e hi; simp [app_main, exec, start] at hi
  | succ m ih =>
    obtain ⟨ih2, ih3⟩ := ih
    have hI := iterations_run L w m
    obtain ⟨evs, htr, ha, hb, hc⟩ := step_shape L (app_main L w m)
    rw [app_main_succ, htr]
    have split : ∀ i h, ((app_main L w m).trace ++ evs)[i]? =
          some (Event.fopen filename "r+" h) → h ≠ NULL →
        (i + 4 < (app_main L w m).trace.length ∧
          (app_main L w m).trace[i]? = some (Event.fopen filename "r+" h)) ∨
        ((app_main L w m).trace.length ≤ i ∧
          evs[i - (app_main L w m).trace.length]? =
            some (Event.fopen filename "r+" h)) := by
      intro i h hi hn
      by_cases hlt : i < (app_main L w m).trace.length
      · rw [List.getElem?_append_left hlt] at hi
        obtain ⟨-, -, -, -, r, t, u, h4⟩ := hI i h hi hn
        exact Or.inl ⟨lt_length_of_getElem? _ _ _ h4, hi⟩
      · rw [List.getElem?_append_right (by omega)] at hi
        exact Or.inr ⟨by omega, hi⟩
    constructor
    · intro i h hi hn hlen
      rw [List.length_append] at hlen
      rcases split i h hi hn with ⟨h4, hi'⟩ | ⟨hge, hi'⟩
      · have hnil : evs = [] := List.eq_nil_of_length_eq_zero (by omega)
        exact ha hnil (ih2 i h hi' hn (by omega))
      · obtain ⟨hj, ⟨-, hpc⟩ | ⟨h6, -⟩⟩ := hc _ h hi' hn
        · exact Or.inl hpc
        · omega
    · intro i h t u e hi hn h4 h5
      rcases split i h hi hn with ⟨hlt, hi'⟩ | ⟨hge, hi'⟩
      · rw [List.getElem?_append_left hlt] at h4
        by_cases hlt5 : i + 5 < (app_main L w m).trace.length
        · rw [List.getElem?_append_left hlt5] at h5
          exact ih3 i h t u e hi' hn h4 h5
        · have hlen : (app_main L w m).trace.length = i + 5 := by omega
          rw [List.getElem?_append_right (by omega), hlen, Nat.sub_self] at h5
          exact hb (ih2 i h hi' hn hlen) e h5
      · obtain ⟨hj, ⟨h5', -⟩ | ⟨-, r, t', u', h4', hr⟩⟩ := hc _ h hi' hn
        · rw [List.getElem?_append_right (by omega),
            List.getElem?_eq_none (by omega)] at h5
          cases h5
        · rw [List.getElem?_append_right (by omega)] at h4
          have : i + 4 - (app_main L w m).trace.length = 4 := by omega
          rw [this, h4'] at h4
          simp at h4
          exact absurd h4.1 hr

/-- C7 (amended): every successful open for update in the trace of a run is
followed, in this order and with nothing in between, by the seek to the end of
the file (offset 0 from the end), the write of the fixed log line, the close
of the handle and a space query.  When that query succeeded these five are
all the calls of the iteration: the next call, if any, is the open for update
of the next iteration or the unmount.  When it returned an error one more
call follows, a format, and it is the last call of the run.  No handle is open
when the open is made, at most one handle is open at any point of the trace,
and none is open between two steps, in particular when the run has
returned. -/
theorem append_iteration {σ : Type} (L : Lib σ) (w : σ) (n i h : Nat)
    (hi : (app_main L w n).trace[i]? = some (Event.fopen filename "r+" h))
    (hn : h ≠ NULL) :
    (app_main L w n).trace[i + 1]? = some (Event.fseek h 0 Whence.SEEK_END) ∧
    (app_main L w n).trace[i + 2]? = some (Event.fprintf h log_line) ∧
    (app_main L w n).trace[i + 3]? = some (Event.fclose h) ∧
    (∃ r t u, (app_main L w n).trace[i + 4]? = some (Event.info r t u) ∧
      (r = L.ESP_OK → ∀ e, (app_main L w n).trace[i + 5]? = some e →
        (∃ g, e = Event.fopen filename "r+" g) ∨ e = Event.unregister) ∧
      (r ≠ L.ESP_OK → (app_main L w n).trace[i + 5]? = some Event.format ∧
        (app_main L w n).trace.length = i + 6)) ∧
    openHandles ((app_main L w n).trace.take i) = [] ∧
    (∀ k, (openHandles ((app_main L w n).trace.take k)).length ≤ 1) ∧
    openHandles (app_main L w n).trace = [] := by
  obtain ⟨h0, h1, h2, h3, r, t, u, h4⟩ := iterations_run L w n i h hi hn
  refine ⟨h1, h2, h3, ⟨r, t, u, h4, ?_, ?_⟩, h0, one_handle_at_most L w n,
    no_handle_between_steps L w n⟩
  · intro hr e he
    rw [hr] at h4
    exact (iteration_ends L w n).2 i h t u e hi hn h4 he
  · intro hr
    exact failed_query_is_last L w n (i + 4) r t u h4 hr

/-- In the run that fills the file the first open for update is the call
number 5 and returns the handle 8; its space query succeeds and the next call
is the open for update of the second iteration. -/
theorem append_iteration_witness :
    (app_main (scripted fillScript) (0, 0) 11).trace[5]? =
      some (Event.fopen filename "r+" 8) ∧
    (8 : Nat) ≠ NULL ∧
    (app_main (scripted fillScript) (0, 0) 11).trace[5 + 5]? =
      some (Event.fopen filename "r+" 9) ∧
    (app_main (scripted fillScript) (0, 0) 11).trace[5 + 1]? =
      some (Event.fseek 8 0 Whence.SEEK_END) ∧
    (app_main (scripted fillScript) (0, 0) 11).trace[5 + 2]? =
      some (Event.fprintf 8 log_line) ∧
    (app_main (scripted fillScript) (0, 0) 11).trace[5 + 3]? = some (Event.fclose 8) ∧
    (∃ r t u, (app_main (scripted fillScript) (0, 0) 11).trace[5 + 4]? =
        some (Event.info r t u) ∧
      (r = (scripted fillScript).ESP_OK →
        ∀ e, (app_main (scripted fillScript) (0, 0) 11).trace[5 + 5]? = some e →
          (∃ g, e = Event.fopen filename "r+" g) ∨ e = Event.unregister) ∧
      (r ≠ (scripted fillScript).ESP_OK →
        (app_main (scripted fillScript) (0, 0) 11).trace[5 + 5]? = some Event.format ∧
        (app_main (scripted fillScript) (0, 0) 11).trace.length = 5 + 6)) ∧
    openHandles ((app_main (scripted fillScript) (0, 0) 11).trace.take 5) = [] ∧
    (∀ k, (openHandles ((app_main (scripted fillScript) (0, 0) 11).trace.take k)).length ≤ 1) ∧
    openHandles (app_main (scripted fillScript) (0, 0) 11).trace = [] :=
  ⟨by decide, by decide, by decide,
   append_iteration (scripted fillScript) (0, 0) 11 5 8 (by decide) (by decide)⟩

/-- C7 as stated fails: the open for update of the first iteration succeeds
(handle 7) and the re-query of that iteration returns the status `-1`; the
iteration then makes six calls, the sixth being a format, not exactly the
five of the claim. -/
theorem append_iteration_counterexample :
    (app_main (scripted requeryFailScript) (0, 0) 5).pc = .body ∧
    (app_main (scripted requeryFailScript) (0, 0) 5).trace =
      [Event.register 0, Event.info 0 3000 0, Event.stat filename 0] ∧
    (7 : Nat) ≠ NULL ∧
    (app_main (scripted requeryFailScript) (0, 0) 6).trace =
      [Event.register 0, Event.info 0 3000 0, Event.stat filename 0,
        Event.fopen filename "r+" 7, Event.fseek 7 0 Whence.SEEK_END,
        Event.fprintf 7 log_line, Event.fclose 7, Event.info (-1) 0 0, Event.format] ∧
    (app_main (scripted requeryFailScript) (0, 0) 6).pc = .done := by
  decide

end SpiffsExample
